import Mathlib

/-!
# Verification of the arXiv HTML-scraping pipeline

Shallow embedding of `src/arxiv_mcp/server.py` and `src/arxiv_mcp/models.py`.
Strings are modelled as `List Char`.  Python regular-expression searches are
modelled by explicit scanning functions that are faithful to the semantics of
the concrete patterns appearing in the source (all of which are backtracking
free after a short analysis, recorded at each definition).  The character
classes `\d`, `\w`, `\s` are modelled by their ASCII subsets (the inputs the
program handles are ASCII HTML attributes and labels).
-/

namespace ArxivMcp

/-- ASCII whitespace, the characters Python `str.split`, `str.strip` and the
regex class `\s` treat as whitespace. -/
def pyWs (c : Char) : Bool :=
  c = ' ' || c = '\t' || c = '\n' || c = '\r' || c = '\x0b' || c = '\x0c'

/-- Regex class `\w` (ASCII subset): letters, digits and underscore. -/
def wordChar (c : Char) : Bool := c.isAlphanum || c = '_'

/-! ## `cleanText` (server.py lines 41-45) -/

/-- `text.replace("\n", " ")`. -/
def replaceNl (s : List Char) : List Char :=
  s.map (fun c => if c = '\n' then ' ' else c)

/-- Python `str.split()` with no argument: split on runs of whitespace,
discarding empty pieces.  (Structurally recursive formulation; the
characterisation by `takeWhile`/`dropWhile` is proved below as
`splitWs_cons_of_word`.) -/
def splitWs : List Char → List (List Char)
  | [] => []
  | c :: rest =>
    if pyWs c then splitWs rest
    else
      match rest with
      | [] => [[c]]
      | c2 :: _ =>
        if pyWs c2 then [c] :: splitWs rest
        else
          match splitWs rest with
          | w :: ws => (c :: w) :: ws
          | [] => [[c]]

/-- `sep.join(pieces)`. -/
def joinWith (sep : List Char) : List (List Char) → List Char
  | [] => []
  | [w] => w
  | w :: ws => w ++ sep ++ joinWith sep ws

/-- Python `str.rstrip()` (with no argument): drop trailing whitespace. -/
def rstripWs (s : List Char) : List Char :=
  (s.reverse.dropWhile pyWs).reverse

/-- Python `str.strip()` (with no argument). -/
def stripWs (s : List Char) : List Char :=
  rstripWs (s.dropWhile pyWs)

/-- `cleanText` (server.py lines 41-45): replace newlines by spaces, then
`" ".join(text.split())`, then `.strip()`. -/
def cleanText (s : List Char) : List Char :=
  stripWs (joinWith [' '] (splitWs (replaceNl s)))

/-! ## `extractPaperId` (server.py lines 27-38)

The three patterns are
`arxiv\.org/abs/(\d+\.\d+)`, `arxiv\.org/pdf/(\d+\.\d+)`, `^(\d+\.\d+)$`,
each tried with `re.search`.  In `\d+\.\d+` no backtracking can succeed:
shortening a greedy `\d+` run leaves a digit where `\.` (or, for the last
run, nothing) is required, so both runs are maximal. -/

/-- Match `\d+\.\d+` at the start of `s`, returning the captured text:
the maximal digit run (non-empty), a literal `.`, then the following
maximal digit run (non-empty). -/
def matchIdAt (s : List Char) : Option (List Char) :=
  if s.takeWhile Char.isDigit = [] then none
  else
    match s.dropWhile Char.isDigit with
    | '.' :: r2 =>
      if r2.takeWhile Char.isDigit = [] then none
      else some (s.takeWhile Char.isDigit ++ '.' :: r2.takeWhile Char.isDigit)
    | _ => none

/-- `re.search` driver: try the position matcher `m` at every suffix of the
input, left to right (including the empty suffix at the end of the string),
returning the first success. -/
def searchOpt {α : Type} (m : List Char → Option α) : List Char → Option α
  | [] => m []
  | c :: rest =>
    match m (c :: rest) with
    | some r => some r
    | none => searchOpt m rest

/-- Position matcher for a pattern of the form `lit(\d+\.\d+)` where `lit`
is a literal. -/
def mLit (lit : List Char) (t : List Char) : Option (List Char) :=
  if lit.isPrefixOf t then matchIdAt (t.drop lit.length) else none

/-- `re.search` for a pattern `lit(\d+\.\d+)`. -/
def tryLit (lit : List Char) (s : List Char) : Option (List Char) :=
  searchOpt (mLit lit) s

/-- The literal part of `arxiv\.org/abs/(\d+\.\d+)`. -/
def litAbs : List Char :=
  ['a', 'r', 'x', 'i', 'v', '.', 'o', 'r', 'g', '/', 'a', 'b', 's', '/']

/-- The literal part of `arxiv\.org/pdf/(\d+\.\d+)`. -/
def litPdf : List Char :=
  ['a', 'r', 'x', 'i', 'v', '.', 'o', 'r', 'g', '/', 'p', 'd', 'f', '/']

/-- `re.search(r"arxiv\.org/abs/(\d+\.\d+)", url)`, returning the capture. -/
def tryAbs (s : List Char) : Option (List Char) := tryLit litAbs s

/-- `re.search(r"arxiv\.org/pdf/(\d+\.\d+)", url)`, returning the capture. -/
def tryPdf (s : List Char) : Option (List Char) := tryLit litPdf s

/-- `re.search(r"^(\d+\.\d+)$", url)`: anchored at position 0; Python `$`
(without `re.MULTILINE`) matches at the end of the string or just before a
final newline. -/
def tryBare (s : List Char) : Option (List Char) :=
  if s.takeWhile Char.isDigit = [] then none
  else
    match s.dropWhile Char.isDigit with
    | '.' :: r2 =>
      if r2.takeWhile Char.isDigit = [] then none
      else if r2.dropWhile Char.isDigit = [] ∨ r2.dropWhile Char.isDigit = ['\n'] then
        some (s.takeWhile Char.isDigit ++ '.' :: r2.takeWhile Char.isDigit)
      else none
    | _ => none

/-- `extractPaperId` (server.py lines 27-38): the three patterns tried in
order, returning the first capture, else `None`. -/
def extractPaperId (url : List Char) : Option (List Char) :=
  match tryAbs url with
  | some m => some m
  | none =>
    match tryPdf url with
    | some m => some m
    | none => tryBare url

/-! ## Abstract label stripping (server.py lines 73-75 and line 291) -/

/-- `re.sub(r"\s*(Less|More)\s*$", "", abstract)` (line 74).  The pattern is
anchored at the end of the string (Python `$` also matches just before a
final newline, but `\s*` absorbs that newline, giving the same replacement),
so a match exists exactly when the string ends, up to trailing whitespace,
in `Less` or `More`; the replaced span is that label together with the
whitespace around it. -/
def removeLessMore (s : List Char) : List Char :=
  let r := rstripWs s
  if ("Less".toList).isSuffixOf r || ("More".toList).isSuffixOf r then
    rstripWs (r.take (r.length - 4))
  else s

/-- `re.sub(r"^Abstract:\s*", "", abstract)` (line 75): anchored at the
start; strips the label and the whitespace run following it. -/
def removeAbstractLabel (s : List Char) : List Char :=
  if ("Abstract:".toList).isPrefixOf s then (s.drop 9).dropWhile pyWs else s

/-- Python `str.replace("Abstract:", "")` (line 291): remove every
occurrence of the literal, scanning left to right, non-overlapping. -/
def removeAbstractAll : List Char → List Char
  | 'A' :: 'b' :: 's' :: 't' :: 'r' :: 'a' :: 'c' :: 't' :: ':' :: rest =>
    removeAbstractAll rest
  | c :: rest => c :: removeAbstractAll rest
  | [] => []

/-! ## Total-results count (server.py lines 54-59) -/

/-- Position matcher for `of ([\d,]+) results` (line 57).  The greedy class
run `[\d,]+` is forced maximal: shortening it leaves a digit or comma where
the literal space of ` results` is required. -/
def matchOfAt (s : List Char) : Option (List Char) :=
  if ("of ".toList).isPrefixOf s then
    let r := s.drop 3
    let grp := r.takeWhile (fun c => c.isDigit || c = ',')
    let rest := r.dropWhile (fun c => c.isDigit || c = ',')
    if grp = [] then none
    else if (" results".toList).isPrefixOf rest then some grp else none
  else none

/-- Value of a Python decimal digit literal (`int` on a digit string). -/
def digitsToNat (l : List Char) : Nat :=
  l.foldl (fun acc c => acc * 10 + (c.toNat - 48)) 0

/-- Lines 54-59: `total_results = 0` unless the header text matches
`of ([\d,]+) results`, in which case
`int(match.group(1).replace(",", ""))`.  `int("")` raises `ValueError`
(uncaught) when the captured group consists of commas only; this is
modelled by `Except.error`. -/
def parseTotal (totalText : Option (List Char)) : Except Unit Nat :=
  match totalText with
  | none => .ok 0
  | some txt =>
    match searchOpt matchOfAt txt with
    | none => .ok 0
    | some grp =>
      let ds := grp.filter (fun c => c ≠ ',')
      if ds = [] then .error () else .ok (digitsToNat ds)

/-! ## Submission date (server.py line 102) -/

/-- Position matcher for `Submitted\s+(\d+\s+\w+,?\s+\d+)` (line 102).  In
this pattern every greedy run is forced maximal — shortening `\d+`, `\s+` or
`\w+` leaves a character of the same class where the following pattern item
requires a different class — and the optional comma is deterministic (a
word character is neither `,` nor whitespace), so the backtracking search
reduces to this left-to-right scan.  The capture is group 1. -/
def matchSubmittedAt (s : List Char) : Option (List Char) :=
  if ("Submitted".toList).isPrefixOf s then
    let r0 := s.drop 9
    let ws1 := r0.takeWhile pyWs
    let r1 := r0.dropWhile pyWs
    if ws1 = [] then none else
    let d1 := r1.takeWhile Char.isDigit
    let r2 := r1.dropWhile Char.isDigit
    if d1 = [] then none else
    let ws2 := r2.takeWhile pyWs
    let r3 := r2.dropWhile pyWs
    if ws2 = [] then none else
    let w1 := r3.takeWhile wordChar
    let r4 := r3.dropWhile wordChar
    if w1 = [] then none else
    let cr : List Char × List Char :=
      match r4 with
      | ',' :: t => ([','], t)
      | _ => ([], r4)
    let ws3 := cr.2.takeWhile pyWs
    let r6 := cr.2.dropWhile pyWs
    if ws3 = [] then none else
    let d2 := r6.takeWhile Char.isDigit
    if d2 = [] then none else
    some (d1 ++ ws2 ++ w1 ++ cr.1 ++ ws3 ++ d2)
  else none

/-! ## Data model (models.py) -/

/-- `Paper` (models.py lines 7-18). -/
structure Paper where
  id_arxiv : List Char
  title : List Char
  abstract : List Char
  authors : List (List Char)
  categories : List (List Char)
  url_abstract : List Char
  url_pdf : List Char
  date_published : Option (List Char)
  date_updated : Option (List Char)
deriving DecidableEq, Repr

/-- `SearchResult` (models.py lines 21-28). -/
structure SearchResult where
  query : List Char
  total_results : Nat
  papers : List Paper
  page : Int
  page_size : Int
deriving DecidableEq, Repr

/-! ## Search-results page extractor (server.py lines 48-128)

The DOM selections performed through BeautifulSoup are abstracted as a
record per `.arxiv-result` block: each field holds the text of the selected
node (`none` when the selector finds nothing).  The link field is doubly
optional: the outer level is the presence of the `.list-title > span > a`
element, the inner level the presence of its `href` attribute. -/

/-- One `.arxiv-result` block, as the code observes it. -/
structure ResultItem where
  titleText : Option (List Char)
  abstractFullText : Option (List Char)
  abstractShortText : Option (List Char)
  linkHref : Option (Option (List Char))
  authorTexts : List (List Char)
  tagTexts : List (List Char)
  dateText : Option (List Char)
deriving DecidableEq

/-- A search-results page: the `.title.is-clearfix` header text and the
`.arxiv-result` blocks in page order. -/
structure SearchPage where
  totalText : Option (List Char)
  items : List ResultItem
deriving DecidableEq

/-- Lines 78-79: `url_elem.get("href") if url_elem else ""`.  A missing
element yields `""`; an element without `href` yields Python `None`, and
`extractPaperId(None)` then raises `TypeError` (modelled by `none`). -/
def urlAbstractOf : Option (Option (List Char)) → Option (List Char)
  | none => some []
  | some none => none
  | some (some h) => some h

/-- The loop body, lines 63-117: extraction of one `Paper` from one result
block.  Returns `none` when the body raises (the only raising statement is
`extractPaperId(None)` when the link element has no `href`); such a block
is skipped by the `except` at lines 118-120. -/
def parseItem (item : ResultItem) : Option Paper :=
  let title := match item.titleText with
    | some t => cleanText t
    | none => "Unknown Title".toList
  let abstractElem := match item.abstractFullText with
    | some t => some t
    | none => item.abstractShortText
  let abstract0 := match abstractElem with
    | some t => cleanText t
    | none => []
  let abstract := removeAbstractLabel (removeLessMore abstract0)
  match urlAbstractOf item.linkHref with
  | none => none
  | some url_abstract =>
    let id_arxiv := (extractPaperId url_abstract).getD []
    let authors := item.authorTexts.map stripWs
    let categories := item.tagTexts.filterMap (fun t =>
      let ct := stripWs t
      if ct ≠ [] ∧ ¬(("doi:".toList).isPrefixOf ct) then some ct else none)
    let date_published := match item.dateText with
      | some dt => searchOpt matchSubmittedAt dt
      | none => none
    some { id_arxiv := id_arxiv
           title := title
           abstract := abstract
           authors := authors
           categories := categories
           url_abstract := url_abstract
           url_pdf := if id_arxiv ≠ [] then
               "https://arxiv.org/pdf/".toList ++ id_arxiv ++ ".pdf".toList
             else []
           date_published := date_published
           date_updated := none }

/-- `parseSearchResults` (server.py lines 48-128).  The total count is
computed before the loop; each block that raises is skipped. -/
def parseSearchResults (page : SearchPage) (query : List Char)
    (pageNo page_size : Int) : Except Unit SearchResult :=
  match parseTotal page.totalText with
  | .error e => .error e
  | .ok total =>
    .ok { query := query
          total_results := total
          papers := page.items.filterMap parseItem
          page := pageNo
          page_size := page_size }

/-! ## Static tables (models.py lines 40-89) -/

/-- `ARXIV_CATEGORIES` (models.py lines 40-81), in insertion order (Python
dicts iterate in insertion order). -/
def ARXIV_CATEGORIES : List (String × String) :=
  [ ("cs.AI", "Artificial Intelligence")
  , ("cs.CL", "Computation and Language")
  , ("cs.CV", "Computer Vision and Pattern Recognition")
  , ("cs.LG", "Machine Learning")
  , ("cs.NE", "Neural and Evolutionary Computing")
  , ("cs.RO", "Robotics")
  , ("cs.SE", "Software Engineering")
  , ("cs.DS", "Data Structures and Algorithms")
  , ("cs.DB", "Databases")
  , ("cs.DC", "Distributed, Parallel, and Cluster Computing")
  , ("cs.CR", "Cryptography and Security")
  , ("cs.HC", "Human-Computer Interaction")
  , ("cs.IR", "Information Retrieval")
  , ("cs.IT", "Information Theory")
  , ("cs.MA", "Multiagent Systems")
  , ("cs.PL", "Programming Languages")
  , ("stat.ML", "Machine Learning (Statistics)")
  , ("stat.TH", "Statistics Theory")
  , ("stat.ME", "Methodology")
  , ("math.OC", "Optimization and Control")
  , ("math.ST", "Statistics Theory")
  , ("math.PR", "Probability")
  , ("math.NA", "Numerical Analysis")
  , ("quant-ph", "Quantum Physics")
  , ("cond-mat", "Condensed Matter")
  , ("hep-th", "High Energy Physics - Theory")
  , ("eess.SP", "Signal Processing")
  , ("eess.IV", "Image and Video Processing")
  , ("eess.AS", "Audio and Speech Processing")
  , ("q-bio.NC", "Neurons and Cognition")
  , ("q-bio.QM", "Quantitative Methods")
  , ("q-fin.ST", "Statistical Finance")
  , ("q-fin.CP", "Computational Finance") ]

/-- `SORT_OPTIONS` (models.py lines 83-89). -/
def SORT_OPTIONS : List (List Char × List Char) :=
  [ ("relevance".toList, "".toList)
  , ("date_desc".toList, "-announced_date_first".toList)
  , ("date_asc".toList, "announced_date_first".toList)
  , ("submissions_desc".toList, "-submittedDate".toList)
  , ("submissions_asc".toList, "submittedDate".toList) ]

/-- `URL_BASE` (server.py line 21). -/
def URL_BASE : List Char := "https://arxiv.org".toList

/-! ## Locator construction helpers -/

/-- UTF-8 encoding of one code point, as byte values. -/
def utf8Bytes (c : Char) : List Nat :=
  let n := c.toNat
  if n < 128 then [n]
  else if n < 2048 then [192 + n / 64, 128 + n % 64]
  else if n < 65536 then [224 + n / 4096, 128 + n / 64 % 64, 128 + n % 64]
  else [240 + n / 262144, 128 + n / 4096 % 64, 128 + n / 64 % 64, 128 + n % 64]

/-- Upper-case hexadecimal digit. -/
def hexDigit (n : Nat) : Char :=
  if n < 10 then Char.ofNat (48 + n) else Char.ofNat (55 + n)

/-- The characters `urllib.parse.quote_plus` never encodes
(ASCII letters, digits, `_`, `.`, `-`, `~`). -/
def quoteSafe (c : Char) : Bool :=
  c.isAlphanum || c = '_' || c = '.' || c = '-' || c = '~'

/-- `urllib.parse.quote_plus`: spaces become `+`, safe characters pass
through, everything else is percent-encoded byte-wise (UTF-8). -/
def quotePlus (s : List Char) : List Char :=
  (s.map (fun c =>
    if c = ' ' then ['+']
    else if quoteSafe c then [c]
    else ((utf8Bytes c).map (fun b => ['%', hexDigit (b / 16), hexDigit (b % 16)])).flatten)).flatten

/-- Python `f"{i}"` for an `int`. -/
def intToStr (i : Int) : List Char :=
  if i < 0 then '-' :: Nat.toDigits 10 i.natAbs else Nat.toDigits 10 i.toNat

/-! ## Query/fetch adapters (server.py lines 131-259), up to the network
call: each adapter model computes the clamped page size, the pagination
offset, the effective query string and the request locator. -/

/-- The part of a request the adapters construct before fetching. -/
structure FetchRequest where
  url : List Char
  query : List Char
  size : Int
  start : Int
deriving DecidableEq, Repr

/-- Python truthiness of an `Optional[str]` parameter: `None` and `""` are
falsy. -/
def truthy (o : Option (List Char)) : Bool :=
  match o with
  | some s => !s.isEmpty
  | none => false

/-- An `f"{tag}{value}"` query part for a truthy optional field (the
`if field: query_parts.append(...)` pattern, lines 220-229). -/
def optField (tag : String) (o : Option (List Char)) : List (List Char) :=
  match o with
  | some s => if s.isEmpty then [] else [tag.toList ++ s]
  | none => []

/-- `search` (lines 131-181) up to the `httpx` call: clamp `page_size` to
50, compute `start`, join the non-empty terms, build the locator. -/
def search (query : List Char) (category author : Option (List Char))
    (sort_by : List Char) (page page_size : Int) : FetchRequest :=
  let ps := min page_size 50
  let start := (page - 1) * ps
  let search_terms :=
    (if query.isEmpty then [] else [query]) ++
    optField "au:" author ++ optField "cat:" category
  let full_query :=
    if search_terms.length > 1 then joinWith (" AND ".toList) search_terms
    else match search_terms with
      | t :: _ => t
      | [] => []
  let encoded_query := quotePlus full_query
  let sort_order := (SORT_OPTIONS.lookup sort_by).getD []
  { url := URL_BASE ++ "/search/?query=".toList ++ encoded_query
      ++ "&searchtype=all&abstracts=show&order=".toList ++ sort_order
      ++ "&size=".toList ++ intToStr ps ++ "&start=".toList ++ intToStr start
    query := full_query
    size := ps
    start := start }

/-- Result of the `searchAdvanced` adapter before any network activity:
either the validation error mapping (line 232) or a request to fetch. -/
inductive AdvResult
  | err (msg : List Char)
  | fetch (req : FetchRequest)
deriving DecidableEq, Repr

/-- `searchAdvanced` (lines 184-259) up to the `httpx` call.  The query
parts are built from `title`, `abstract`, `author`, `category` and
`id_arxiv` only (lines 219-229); `date_from`/`date_to` are appended to the
locator afterwards (lines 249-252) and do not count towards the validation
check at line 231.  In the source the `page_size` clamp (lines 215-216)
runs before the validation check, but its result is only observable in the
fetch branch, so the model branches first — extensionally identical. -/
def searchAdvanced (title abstract author category id_arxiv
    date_from date_to : Option (List Char))
    (sort_by : List Char) (page page_size : Int) : AdvResult :=
  if (optField "ti:" title ++ optField "abs:" abstract ++ optField "au:" author
      ++ optField "cat:" category ++ optField "id:" id_arxiv).isEmpty then
    .err ("At least one search field is required".toList)
  else
    let ps := min page_size 50
    let start := (page - 1) * ps
    let query_parts :=
      optField "ti:" title ++ optField "abs:" abstract ++ optField "au:" author
        ++ optField "cat:" category ++ optField "id:" id_arxiv
    let full_query := joinWith (" AND ".toList) query_parts
    let encoded_query := quotePlus full_query
    let sort_order := (SORT_OPTIONS.lookup sort_by).getD []
    let url0 := URL_BASE
      ++ "/search/advanced?terms-0-operator=AND&terms-0-term=".toList
      ++ encoded_query
      ++ "&terms-0-field=all&classification-physics_archives=all&classification-include_cross_list=include&abstracts=show&size=".toList
      ++ intToStr ps ++ "&start=".toList ++ intToStr start
      ++ "&order=".toList ++ sort_order
    let url1 := match date_from with
      | some d => if d.isEmpty then url0 else url0 ++ "&date-from_date=".toList ++ d
      | none => url0
    let url2 := match date_to with
      | some d => if d.isEmpty then url1 else url1 ++ "&date-to_date=".toList ++ d
      | none => url1
    .fetch { url := url2, query := full_query, size := ps, start := start }

/-! ## `getPaper` (server.py lines 262-334) -/

/-- Lines 273-277: resolve the identifier (`if not id_arxiv` also rejects
an empty string) and build the abstract-page locator. -/
def getPaperLocator (id_or_url : List Char) : Option (List Char) :=
  match extractPaperId id_or_url with
  | none => none
  | some id_arxiv =>
    if id_arxiv = [] then none
    else some (URL_BASE ++ "/abs/".toList ++ id_arxiv)

/-- Python `str.replace("Title:", "")` (lines 287 and 438): remove every
occurrence, scanning left to right. -/
def removeTitleAll : List Char → List Char
  | 'T' :: 'i' :: 't' :: 'l' :: 'e' :: ':' :: rest => removeTitleAll rest
  | c :: rest => c :: removeTitleAll rest
  | [] => []

/-- `getPaper` abstract extraction (lines 290-291):
`cleanText(abstract_elem.text.replace("Abstract:", ""))`. -/
def paperAbstract (abstractText : List Char) : List Char :=
  cleanText (removeAbstractAll abstractText)

/-- `getPaper` title extraction (lines 286-287). -/
def paperTitle (titleText : List Char) : List Char :=
  cleanText (removeTitleAll titleText)

/-- The `Paper` assembly in `getPaper` (lines 323-332): `id_arxiv` is the
identifier resolved at line 273; the remaining extracted fields are taken
as parameters since the invariant proved about this record constrains only
`id_arxiv`, `url_abstract` and `url_pdf`, which are fully modelled. -/
def mkGetPaperPaper (id_arxiv title abstract : List Char)
    (authors categories : List (List Char))
    (date_published : Option (List Char)) : Paper :=
  { id_arxiv := id_arxiv
    title := title
    abstract := abstract
    authors := authors
    categories := categories
    url_abstract := URL_BASE ++ "/abs/".toList ++ id_arxiv
    url_pdf := URL_BASE ++ "/pdf/".toList ++ id_arxiv ++ ".pdf".toList
    date_published := date_published
    date_updated := none }

/-! ## `listCategories` (server.py lines 364-393) -/

/-- `Category` (models.py lines 31-36) / the `{code, name, group}` mapping
built at line 391. -/
structure Category where
  code : String
  name : String
  group : String
deriving DecidableEq, Repr

/-- Group assignment by code prefix (lines 376-389); `code.startswith(p)`
is the character-list prefix test. -/
def groupOf (code : String) : String :=
  if ("cs.".toList).isPrefixOf code.toList then "Computer Science"
  else if ("stat.".toList).isPrefixOf code.toList then "Statistics"
  else if ("math.".toList).isPrefixOf code.toList then "Mathematics"
  else if ("eess.".toList).isPrefixOf code.toList then "Electrical Engineering"
  else if ("q-bio.".toList).isPrefixOf code.toList then "Quantitative Biology"
  else if ("q-fin.".toList).isPrefixOf code.toList then "Quantitative Finance"
  else "Physics"

/-- Python tuple comparison for the sort key `(x["group"], x["code"])`
(line 393): lexicographic on the pair, strings compared by code point. -/
def catKeyLE (a b : Category) : Bool :=
  if a.group < b.group then true
  else if b.group < a.group then false
  else if a.code < b.code then true
  else if b.code < a.code then false
  else true

/-- `listCategories` (lines 364-393).  Python `sorted` is a stable sort,
modelled by the stable `List.mergeSort`; the `lru_cache` memoisation only
re-serves this constant. -/
def listCategories : List Category :=
  (ARXIV_CATEGORIES.map
    (fun p => { code := p.1, name := p.2, group := groupOf p.1 })).mergeSort catKeyLE

/-! ## `getRecent` (server.py lines 396-476) -/

/-- One element of `soup.select("dl#articles dt, dl#articles dd")`, in
document order.  A `dt` carries the `href` of its first `a[href*='/abs/']`
link if any (`.get("href", "")` supplies a default, so the attribute value
is a plain string); a `dd` carries the title text, author anchor texts and
subjects text of its sub-nodes. -/
inductive Entry
  | dt (absHref : Option (List Char))
  | dd (titleText : Option (List Char)) (authorTexts : List (List Char))
       (subjectsText : Option (List Char))
deriving DecidableEq

/-- `[a-z-]` (the lower-case class used by the subjects regex). -/
def isLowerDash (c : Char) : Bool := c.isLower || c = '-'

/-- Position matcher for `([a-z-]+\.[A-Z]+)` (line 452).  Both class runs
are forced maximal (a class character can never match `\.`, and nothing
follows the final run), so no backtracking applies.  Returns the capture
and the input remaining after the match. -/
def matchCatAt (s : List Char) : Option (List Char × List Char) :=
  let r1 := s.takeWhile isLowerDash
  let t1 := s.dropWhile isLowerDash
  if r1 = [] then none else
  match t1 with
  | '.' :: t2 =>
    let r2 := t2.takeWhile Char.isUpper
    let t3 := t2.dropWhile Char.isUpper
    if r2 = [] then none else some (r1 ++ '.' :: r2, t3)
  | _ => none

/-- Worker for `re.findall(r"([a-z-]+\.[A-Z]+)", text)`: scan left to
right, continuing after each non-overlapping match.  The fuel argument is
initialised to the input length; every step consumes at least one input
character, so the fuel never runs out. -/
def findallCatGo : Nat → List Char → List (List Char)
  | 0, _ => []
  | _ + 1, [] => []
  | fuel + 1, c :: rest =>
    match matchCatAt (c :: rest) with
    | some capRem => capRem.1 :: findallCatGo fuel capRem.2
    | none => findallCatGo fuel rest

/-- `re.findall(r"([a-z-]+\.[A-Z]+)", subj_text)` (line 452). -/
def findallCat (s : List Char) : List (List Char) := findallCatGo s.length s

/-- `list(set(cat_matches))` (line 453).  A Python `set` iterates in an
unspecified hash-dependent order; the model fixes first-occurrence order.
No claim proved below depends on the order of this list. -/
def dedupFirst (l : List (List Char)) : List (List Char) :=
  l.foldl (fun acc x => if x ∈ acc then acc else acc ++ [x]) []

/-- Lines 427-434: extract the identifier from the `dt` link via
`re.search(r"/abs/(\d+\.\d+)", href)`; `""` when there is no link or no
match. -/
def recentId (absHref : Option (List Char)) : List Char :=
  match absHref with
  | none => []
  | some href => (tryLit ("/abs/".toList) href).getD []

/-- Lines 427-465: processing of one `dt`/`dd` pair.  `none` when no
identifier was extracted (`if id_arxiv:` at line 455 fails), in which case
no paper is appended. -/
def mkRecentPaper (absHref : Option (List Char))
    (titleText : Option (List Char)) (authorTexts : List (List Char))
    (subjectsText : Option (List Char)) : Option Paper :=
  if recentId absHref = [] then none
  else some { id_arxiv := recentId absHref
              title := match titleText with
                | some t => cleanText (removeTitleAll t)
                | none => []
              abstract := []
              authors := authorTexts.map stripWs
              categories := match subjectsText with
                | some st => dedupFirst (findallCat st)
                | none => []
              url_abstract := URL_BASE ++ "/abs/".toList ++ recentId absHref
              url_pdf := URL_BASE ++ "/pdf/".toList ++ recentId absHref
                ++ ".pdf".toList
              date_published := none
              date_updated := none }

/-- The `while` walk over the mixed `dt`/`dd` list (lines 421-469):
an adjacent `dt`,`dd` pair is processed and both are consumed (`i += 2`);
otherwise the cursor advances by one (`i += 1`).  The loop condition
`i < len(entries) - 1` leaves a final unpaired element unprocessed. -/
def walkEntries : List Entry → List Paper
  | [] => []
  | [_] => []
  | .dt a :: .dd t au su :: rest =>
    (match mkRecentPaper a t au su with
     | some p => p :: walkEntries rest
     | none => walkEntries rest)
  | _ :: e2 :: rest => walkEntries (e2 :: rest)

/-- The mapping returned by `getRecent` (lines 471-476), together with the
listing locator built at lines 408-409. -/
structure RecentResult where
  category : String
  category_name : String
  count : Nat
  papers : List Paper
  url : List Char
deriving DecidableEq

/-- `getRecent` (lines 396-476) with the fetched page abstracted as its
`dt`/`dd` entry list: clamp `count` to 50 for the locator, walk the
entries, and assemble the result mapping; `count` in the result is
`len(papers)` and `category_name` falls back to the raw code. -/
def getRecent (category : String) (count : Int) (entries : List Entry) :
    RecentResult :=
  let c := min count 50
  let papers := walkEntries entries
  { category := category
    category_name := (ARXIV_CATEGORIES.lookup category).getD category
    count := papers.length
    papers := papers
    url := URL_BASE ++ "/list/".toList ++ category.toList
      ++ "/recent?skip=0&show=".toList ++ intToStr c }

/-! ## List toolbox -/

theorem takeWhile_append_of_all {p : Char → Bool} {l1 : List Char}
    (l2 : List Char) (h : ∀ c ∈ l1, p c = true) :
    (l1 ++ l2).takeWhile p = l1 ++ l2.takeWhile p := by
  induction l1 with
  | nil => simp
  | cons c l ih =>
    have hc := h c (List.mem_cons_self c l)
    simp only [List.cons_append, List.takeWhile_cons, hc, if_true]
    rw [ih (fun x hx => h x (List.mem_cons_of_mem c hx))]

theorem dropWhile_append_of_all {p : Char → Bool} {l1 : List Char}
    (l2 : List Char) (h : ∀ c ∈ l1, p c = true) :
    (l1 ++ l2).dropWhile p = l2.dropWhile p := by
  induction l1 with
  | nil => simp
  | cons c l ih =>
    have hc := h c (List.mem_cons_self c l)
    simp only [List.cons_append, List.dropWhile_cons, hc, if_true]
    exact ih (fun x hx => h x (List.mem_cons_of_mem c hx))

theorem takeWhile_all {p : Char → Bool} {l : List Char}
    (h : ∀ c ∈ l, p c = true) : l.takeWhile p = l := by
  have := takeWhile_append_of_all ([] : List Char) h
  simpa using this

theorem dropWhile_all {p : Char → Bool} {l : List Char}
    (h : ∀ c ∈ l, p c = true) : l.dropWhile p = [] := by
  have := dropWhile_append_of_all ([] : List Char) h
  simpa using this

theorem dropWhile_cons_neg {p : Char → Bool} {c : Char} {l : List Char}
    (h : p c = false) : (c :: l).dropWhile p = c :: l := by
  simp [List.dropWhile_cons, h]

theorem takeWhile_cons_neg {p : Char → Bool} {c : Char} {l : List Char}
    (h : p c = false) : (c :: l).takeWhile p = [] := by
  simp [List.takeWhile_cons, h]

/-! ## `splitWs` characterisation and `cleanText` idempotence -/

theorem splitWs_cons_of_ws {c : Char} (rest : List Char)
    (h : pyWs c = true) : splitWs (c :: rest) = splitWs rest := by
  cases rest with
  | nil => simp [splitWs, h]
  | cons c2 rest2 => simp [splitWs, h]

theorem splitWs_cons_cons (c c2 : Char) (rest2 : List Char) :
    splitWs (c :: c2 :: rest2) =
      if pyWs c then splitWs (c2 :: rest2)
      else if pyWs c2 then [c] :: splitWs (c2 :: rest2)
      else match splitWs (c2 :: rest2) with
        | w :: ws => (c :: w) :: ws
        | [] => [[c]] := rfl

theorem splitWs_cons_of_word {c : Char} (rest : List Char)
    (h : pyWs c = false) :
    splitWs (c :: rest) =
      ((c :: rest).takeWhile (fun x => !pyWs x)) ::
        splitWs ((c :: rest).dropWhile (fun x => !pyWs x)) := by
  induction rest generalizing c with
  | nil => simp [splitWs, h]
  | cons c2 rest2 ih =>
    by_cases h2 : pyWs c2 = true
    · rw [splitWs_cons_cons, if_neg (by simp [h]), if_pos h2]
      simp [List.takeWhile_cons, List.dropWhile_cons, h, h2]
    · have h2f : pyWs c2 = false := by
        cases hb : pyWs c2 with
        | false => rfl
        | true => exact absurd hb h2
      have ihc2 := ih h2f
      rw [splitWs_cons_cons, if_neg (by simp [h]), if_neg (by simp [h2f]),
        ihc2]
      simp [List.takeWhile_cons, List.dropWhile_cons, h, h2f]

/-- Every word produced by `splitWs` is non-empty and whitespace-free. -/
def goodWords (ws : List (List Char)) : Prop :=
  ∀ w ∈ ws, w ≠ [] ∧ ∀ c ∈ w, pyWs c = false

theorem splitWs_good (s : List Char) : goodWords (splitWs s) := by
  induction s with
  | nil => intro w hw; simp [splitWs] at hw
  | cons c rest ih =>
    cases hc : pyWs c with
    | true => rw [splitWs_cons_of_ws rest hc]; exact ih
    | false =>
      cases rest with
      | nil =>
        intro w hw
        simp [splitWs, hc] at hw
        subst hw
        exact ⟨by simp, by intro x hx; simp at hx; subst hx; exact hc⟩
      | cons c2 rest2 =>
        cases hc2 : pyWs c2 with
        | true =>
          intro w hw
          rw [splitWs_cons_cons, if_neg (by simp [hc]), if_pos hc2] at hw
          rcases List.mem_cons.mp hw with hw | hw
          · subst hw
            exact ⟨by simp, by intro x hx; simp at hx; subst hx; exact hc⟩
          · exact ih w hw
        | false =>
          intro w hw
          rw [splitWs_cons_cons, if_neg (by simp [hc]),
            if_neg (by simp [hc2])] at hw
          cases hsp : splitWs (c2 :: rest2) with
          | nil =>
            rw [hsp] at hw
            simp at hw
            subst hw
            exact ⟨by simp, by intro x hx; simp at hx; subst hx; exact hc⟩
          | cons w0 ws0 =>
            rw [hsp] at hw
            rcases List.mem_cons.mp hw with hw | hw
            · subst hw
              have hgood := ih w0 (by rw [hsp]; exact List.mem_cons_self _ _)
              refine ⟨by simp, ?_⟩
              intro x hx
              rcases List.mem_cons.mp hx with hx | hx
              · subst hx; exact hc
              · exact hgood.2 x hx
            · exact ih w (by rw [hsp]; exact List.mem_cons_of_mem _ hw)

theorem joinWith_cons_of_ne (sep w : List Char) {ws : List (List Char)}
    (h : ws ≠ []) :
    joinWith sep (w :: ws) = w ++ sep ++ joinWith sep ws := by
  cases ws with
  | nil => exact absurd rfl h
  | cons w2 ws2 => rfl

theorem splitWs_joinWith {ws : List (List Char)} (h : goodWords ws) :
    splitWs (joinWith [' '] ws) = ws := by
  induction ws with
  | nil => rfl
  | cons w ws ih =>
    obtain ⟨hne, hall⟩ := h w (List.mem_cons_self w ws)
    obtain ⟨c, w', rfl⟩ : ∃ c w', w = c :: w' := by
      cases w with
      | nil => exact absurd rfl hne
      | cons c w' => exact ⟨c, w', rfl⟩
    have hc : pyWs c = false := hall c (List.mem_cons_self c w')
    have hallb : ∀ x ∈ c :: w', (fun y => !pyWs y) x = true := by
      intro x hx
      simp [hall x hx]
    cases ws with
    | nil =>
      rw [show joinWith [' '] [c :: w'] = c :: w' from rfl,
        splitWs_cons_of_word w' hc, takeWhile_all hallb, dropWhile_all hallb]
      rfl
    | cons w2 ws2 =>
      rw [joinWith_cons_of_ne [' '] (c :: w') (by simp)]
      have hjoin : (c :: w') ++ [' '] ++ joinWith [' '] (w2 :: ws2)
          = c :: (w' ++ ' ' :: joinWith [' '] (w2 :: ws2)) := by simp
      rw [hjoin, splitWs_cons_of_word _ hc]
      have hallb' : ∀ x ∈ w', (fun y => !pyWs y) x = true := by
        intro x hx
        exact hallb x (List.mem_cons_of_mem c hx)
      have htw : (c :: (w' ++ ' ' :: joinWith [' '] (w2 :: ws2))).takeWhile
          (fun y => !pyWs y) = c :: w' := by
        rw [show c :: (w' ++ ' ' :: joinWith [' '] (w2 :: ws2))
            = (c :: w') ++ ' ' :: joinWith [' '] (w2 :: ws2) from rfl]
        rw [takeWhile_append_of_all _ hallb, takeWhile_cons_neg (by simp [pyWs])]
        simp
      have hdw : (c :: (w' ++ ' ' :: joinWith [' '] (w2 :: ws2))).dropWhile
          (fun y => !pyWs y) = ' ' :: joinWith [' '] (w2 :: ws2) := by
        rw [show c :: (w' ++ ' ' :: joinWith [' '] (w2 :: ws2))
            = (c :: w') ++ ' ' :: joinWith [' '] (w2 :: ws2) from rfl]
        rw [dropWhile_append_of_all _ hallb, dropWhile_cons_neg (by simp [pyWs])]
      rw [htw, hdw, splitWs_cons_of_ws _ (by simp [pyWs])]
      rw [ih (fun x hx => h x (List.mem_cons_of_mem _ hx))]

theorem joinWith_last_nonWs {ws : List (List Char)} (h : goodWords ws)
    (hne : ws ≠ []) :
    ∃ t c, joinWith [' '] ws = t ++ [c] ∧ pyWs c = false := by
  induction ws with
  | nil => exact absurd rfl hne
  | cons w ws ih =>
    obtain ⟨hwne, hall⟩ := h w (List.mem_cons_self w ws)
    cases ws with
    | nil =>
      obtain ⟨t, c, rfl⟩ : ∃ t c, w = t ++ [c] := by
        rcases List.eq_nil_or_concat w with h0 | ⟨t, c, rfl⟩
        · exact absurd h0 hwne
        · exact ⟨t, c, by simp [List.concat_eq_append]⟩
      exact ⟨t, c, rfl, hall c (by simp)⟩
    | cons w2 ws2 =>
      obtain ⟨t, c, hjoin, hc⟩ :=
        ih (fun x hx => h x (List.mem_cons_of_mem _ hx)) (by simp)
      refine ⟨w ++ [' '] ++ t, c, ?_, hc⟩
      rw [joinWith_cons_of_ne [' '] w (by simp), hjoin]
      simp

theorem stripWs_join_good {ws : List (List Char)} (h : goodWords ws) :
    stripWs (joinWith [' '] ws) = joinWith [' '] ws := by
  cases ws with
  | nil => rfl
  | cons w ws =>
    obtain ⟨hwne, hall⟩ := h w (List.mem_cons_self w ws)
    obtain ⟨c, w', rfl⟩ : ∃ c w', w = c :: w' := by
      cases w with
      | nil => exact absurd rfl hwne
      | cons c w' => exact ⟨c, w', rfl⟩
    have hc : pyWs c = false := hall c (List.mem_cons_self c w')
    obtain ⟨t, d, hjoin, hd⟩ := joinWith_last_nonWs h (by simp)
    have hhead : ∃ u, joinWith [' '] ((c :: w') :: ws) = c :: u := by
      cases ws with
      | nil => exact ⟨w', rfl⟩
      | cons w2 ws2 =>
        exact ⟨w' ++ [' '] ++ joinWith [' '] (w2 :: ws2), by
          rw [joinWith_cons_of_ne [' '] (c :: w') (by simp)]; simp⟩
    obtain ⟨u, hu⟩ := hhead
    unfold stripWs rstripWs
    rw [hu, dropWhile_cons_neg hc, ← hu, hjoin]
    rw [List.reverse_append]
    simp only [List.reverse_cons, List.reverse_nil, List.nil_append,
      List.singleton_append]
    rw [dropWhile_cons_neg hd]
    simp

theorem mem_joinWith {c : Char} {ws : List (List Char)}
    (h : c ∈ joinWith [' '] ws) : c = ' ' ∨ ∃ w ∈ ws, c ∈ w := by
  induction ws with
  | nil => simp [joinWith] at h
  | cons w ws ih =>
    cases ws with
    | nil =>
      right
      exact ⟨w, List.mem_cons_self w [], h⟩
    | cons w2 ws2 =>
      rw [joinWith_cons_of_ne [' '] w (by simp)] at h
      rcases List.mem_append.mp h with h1 | h1
      · rcases List.mem_append.mp h1 with h2 | h2
        · exact Or.inr ⟨w, List.mem_cons_self w _, h2⟩
        · simp at h2
          exact Or.inl h2
      · rcases ih h1 with h2 | ⟨w0, hw0, hc0⟩
        · exact Or.inl h2
        · exact Or.inr ⟨w0, List.mem_cons_of_mem w hw0, hc0⟩

theorem replaceNl_eq_self {l : List Char} (h : ∀ c ∈ l, c ≠ '\n') :
    replaceNl l = l := by
  induction l with
  | nil => rfl
  | cons c rest ih =>
    unfold replaceNl
    simp only [List.map_cons]
    rw [if_neg (h c (List.mem_cons_self c rest))]
    have := ih (fun x hx => h x (List.mem_cons_of_mem c hx))
    unfold replaceNl at this
    rw [this]

theorem replaceNl_join_good {ws : List (List Char)} (h : goodWords ws) :
    replaceNl (joinWith [' '] ws) = joinWith [' '] ws := by
  apply replaceNl_eq_self
  intro c hc
  rcases mem_joinWith hc with h1 | ⟨w, hw, hcw⟩
  · subst h1; decide
  · intro hceq
    have := (h w hw).2 c hcw
    rw [hceq] at this
    simp [pyWs] at this

theorem cleanText_eq_join (s : List Char) :
    cleanText s = joinWith [' '] (splitWs (replaceNl s)) := by
  unfold cleanText
  exact stripWs_join_good (splitWs_good (replaceNl s))

theorem cleanText_join_good {ws : List (List Char)} (h : goodWords ws) :
    cleanText (joinWith [' '] ws) = joinWith [' '] ws := by
  rw [cleanText_eq_join, replaceNl_join_good h, splitWs_joinWith h]

/-! ## `searchOpt` toolbox -/

theorem searchOpt_cons {α : Type} (m : List Char → Option α) (c : Char)
    (rest : List Char) :
    searchOpt m (c :: rest) =
      match m (c :: rest) with
      | some r => some r
      | none => searchOpt m rest := rfl

theorem searchOpt_eq_none_of {α : Type} {m : List Char → Option α}
    {s : List Char} (h : ∀ t, t <:+ s → m t = none) : searchOpt m s = none := by
  induction s with
  | nil => exact h [] (List.suffix_refl [])
  | cons c rest ih =>
    rw [searchOpt_cons, h (c :: rest) (List.suffix_refl _)]
    exact ih (fun t ht => h t (ht.trans (List.suffix_cons c rest)))

theorem searchOpt_eq_some_suffix {α : Type} {m : List Char → Option α}
    {s : List Char} {v : α} (h : searchOpt m s = some v) :
    ∃ t, t <:+ s ∧ m t = some v := by
  induction s with
  | nil => exact ⟨[], List.suffix_refl [], h⟩
  | cons c rest ih =>
    rw [searchOpt_cons] at h
    cases hm : m (c :: rest) with
    | some r =>
      rw [hm] at h
      injection h with h2
      subst h2
      exact ⟨c :: rest, List.suffix_refl _, hm⟩
    | none =>
      rw [hm] at h
      obtain ⟨t, ht, hmt⟩ := ih h
      exact ⟨t, ht.trans (List.suffix_cons c rest), hmt⟩

theorem searchOpt_isSome_of_suffix {α : Type} {m : List Char → Option α}
    {s t : List Char} {v : α} (hsub : t <:+ s) (hm : m t = some v) :
    ∃ w, searchOpt m s = some w := by
  induction s with
  | nil =>
    have ht : t = [] := List.eq_nil_of_suffix_nil hsub
    subst ht
    exact ⟨v, hm⟩
  | cons c rest ih =>
    rw [searchOpt_cons]
    cases hmc : m (c :: rest) with
    | some r => exact ⟨r, rfl⟩
    | none =>
      rcases List.suffix_cons_iff.mp hsub with h1 | h1
      · subst h1
        rw [hmc] at hm
        simp at hm
      · exact ih h1

/-! ## `matchIdAt` characterisation -/

theorem matchIdAt_decomp {s cap : List Char} (h : matchIdAt s = some cap) :
    ∃ d1 d2 r, s = d1 ++ ('.' :: d2) ++ r ∧ cap = d1 ++ ('.' :: d2) ∧
      d1 ≠ [] ∧ d2 ≠ [] ∧ (∀ c ∈ d1, c.isDigit = true) ∧
      (∀ c ∈ d2, c.isDigit = true) := by
  unfold matchIdAt at h
  split at h
  · simp at h
  · rename_i h0
    split at h
    · rename_i r2 heq
      split at h
      · simp at h
      · rename_i h2
        injection h with h3
        refine ⟨s.takeWhile Char.isDigit, r2.takeWhile Char.isDigit,
          r2.dropWhile Char.isDigit, ?_, h3.symm, h0, h2,
          fun x hx => List.mem_takeWhile_imp hx,
          fun x hx => List.mem_takeWhile_imp hx⟩
        conv_lhs => rw [← List.takeWhile_append_dropWhile Char.isDigit s]
        rw [heq]
        conv_lhs => rw [← List.takeWhile_append_dropWhile Char.isDigit r2]
        simp
    · simp at h

theorem matchIdAt_of_form (d1 d2 r : List Char) (h1 : d1 ≠ []) (h2 : d2 ≠ [])
    (hd1 : ∀ c ∈ d1, c.isDigit = true) (hd2 : ∀ c ∈ d2, c.isDigit = true) :
    matchIdAt (d1 ++ ('.' :: d2) ++ r) =
      some (d1 ++ ('.' :: (d2 ++ r.takeWhile Char.isDigit))) := by
  have hdot : Char.isDigit '.' = false := by decide
  have hshape : d1 ++ ('.' :: d2) ++ r = d1 ++ ('.' :: (d2 ++ r)) := by simp
  have ht : (d1 ++ ('.' :: d2) ++ r).takeWhile Char.isDigit = d1 := by
    rw [hshape, takeWhile_append_of_all _ hd1, takeWhile_cons_neg hdot,
      List.append_nil]
  have hdw : (d1 ++ ('.' :: d2) ++ r).dropWhile Char.isDigit
      = '.' :: (d2 ++ r) := by
    rw [hshape, dropWhile_append_of_all _ hd1, dropWhile_cons_neg hdot]
  unfold matchIdAt
  rw [ht, hdw, if_neg h1]
  show (if (d2 ++ r).takeWhile Char.isDigit = [] then none
      else some (d1 ++ '.' :: (d2 ++ r).takeWhile Char.isDigit))
    = some (d1 ++ ('.' :: (d2 ++ r.takeWhile Char.isDigit)))
  rw [takeWhile_append_of_all _ hd2, if_neg (by simp [h2])]

/-! ## C1 spec-side pattern predicates.

These are written from the specification's words ("match an abstract-page
URL pattern", "a PDF-page URL pattern", "a bare identifier pattern
(`digits.digits`)") as declarative match-sets of the three regexes, to be
compared with the code-derived `extractPaperId`. -/

/-- The string contains `lit` followed by `digits.digits` — the match-set
of the regex `lit(\d+\.\d+)` under `re.search`. -/
def matchesLitPattern (lit : List Char) (s : List Char) : Prop :=
  ∃ pre d1 d2 post, d1 ≠ [] ∧ d2 ≠ [] ∧ (∀ c ∈ d1, c.isDigit = true) ∧
    (∀ c ∈ d2, c.isDigit = true) ∧ s = pre ++ lit ++ d1 ++ ('.' :: d2) ++ post

/-- Match-set of the abstract-page URL pattern `arxiv\.org/abs/(\d+\.\d+)`. -/
def matchesAbsPattern (s : List Char) : Prop := matchesLitPattern litAbs s

/-- Match-set of the PDF-page URL pattern `arxiv\.org/pdf/(\d+\.\d+)`. -/
def matchesPdfPattern (s : List Char) : Prop := matchesLitPattern litPdf s

/-- Match-set of the bare identifier pattern `^(\d+\.\d+)$`: the whole
string is `digits.digits` (Python `$` also accepts one trailing
newline). -/
def matchesBarePattern (s : List Char) : Prop :=
  ∃ d1 d2, d1 ≠ [] ∧ d2 ≠ [] ∧ (∀ c ∈ d1, c.isDigit = true) ∧
    (∀ c ∈ d2, c.isDigit = true) ∧
    (s = d1 ++ ('.' :: d2) ∨ s = d1 ++ ('.' :: d2) ++ ['\n'])

theorem tryLit_ne_none_iff (lit s : List Char) :
    tryLit lit s ≠ none ↔ matchesLitPattern lit s := by
  constructor
  · intro h
    obtain ⟨cap, hcap⟩ := Option.ne_none_iff_exists'.mp h
    obtain ⟨t, hsub, hm⟩ := searchOpt_eq_some_suffix hcap
    unfold mLit at hm
    split at hm
    · rename_i hp
      obtain ⟨u, hu⟩ := List.isPrefixOf_iff_prefix.mp hp
      have hdrop : t.drop lit.length = u := by
        rw [← hu]
        exact List.drop_left lit u
      rw [hdrop] at hm
      obtain ⟨d1, d2, r, hu2, _, h1, h2, hd1, hd2⟩ := matchIdAt_decomp hm
      obtain ⟨pre, hpre⟩ := hsub
      refine ⟨pre, d1, d2, r, h1, h2, hd1, hd2, ?_⟩
      rw [← hpre, ← hu, hu2]
      simp
    · simp at hm
  · rintro ⟨pre, d1, d2, post, h1, h2, hd1, hd2, rfl⟩
    have hsub : lit ++ (d1 ++ ('.' :: d2) ++ post) <:+
        pre ++ lit ++ d1 ++ ('.' :: d2) ++ post := by
      refine ⟨pre, ?_⟩
      simp
    have hm : mLit lit (lit ++ (d1 ++ ('.' :: d2) ++ post)) =
        some (d1 ++ ('.' :: (d2 ++ post.takeWhile Char.isDigit))) := by
      unfold mLit
      rw [if_pos (List.isPrefixOf_iff_prefix.mpr (List.prefix_append lit _)),
        List.drop_left lit _]
      exact matchIdAt_of_form d1 d2 post h1 h2 hd1 hd2
    obtain ⟨w, hw⟩ := searchOpt_isSome_of_suffix hsub hm
    unfold tryLit
    rw [hw]
    simp

theorem tryBare_form (d1 d2 tail : List Char) (h1 : d1 ≠ []) (h2 : d2 ≠ [])
    (hd1 : ∀ c ∈ d1, c.isDigit = true) (hd2 : ∀ c ∈ d2, c.isDigit = true)
    (htail : tail = [] ∨ tail = ['\n']) :
    tryBare (d1 ++ ('.' :: (d2 ++ tail))) = some (d1 ++ ('.' :: d2)) := by
  have hdot : Char.isDigit '.' = false := by decide
  have htailtw : tail.takeWhile Char.isDigit = [] := by
    rcases htail with rfl | rfl
    · rfl
    · decide
  have htaildw : tail.dropWhile Char.isDigit = tail := by
    rcases htail with rfl | rfl
    · rfl
    · decide
  have ht : (d1 ++ ('.' :: (d2 ++ tail))).takeWhile Char.isDigit = d1 := by
    rw [takeWhile_append_of_all _ hd1, takeWhile_cons_neg hdot,
      List.append_nil]
  have hdw : (d1 ++ ('.' :: (d2 ++ tail))).dropWhile Char.isDigit
      = '.' :: (d2 ++ tail) := by
    rw [dropWhile_append_of_all _ hd1, dropWhile_cons_neg hdot]
  unfold tryBare
  rw [ht, hdw, if_neg h1]
  show (if (d2 ++ tail).takeWhile Char.isDigit = [] then none
      else if (d2 ++ tail).dropWhile Char.isDigit = [] ∨
          (d2 ++ tail).dropWhile Char.isDigit = ['\n'] then
        some (d1 ++ '.' :: (d2 ++ tail).takeWhile Char.isDigit)
      else none)
    = some (d1 ++ ('.' :: d2))
  rw [takeWhile_append_of_all _ hd2, dropWhile_append_of_all _ hd2,
    htailtw, htaildw, List.append_nil]
  rw [if_neg h2, if_pos htail]

theorem tryBare_ne_none_iff (s : List Char) :
    tryBare s ≠ none ↔ matchesBarePattern s := by
  constructor
  · intro h
    obtain ⟨cap, hcap⟩ := Option.ne_none_iff_exists'.mp h
    unfold tryBare at hcap
    split at hcap
    · simp at hcap
    · rename_i h0
      split at hcap
      · rename_i r2 heq
        split at hcap
        · simp at hcap
        · rename_i h2
          split at hcap
          · rename_i h3
            refine ⟨s.takeWhile Char.isDigit, r2.takeWhile Char.isDigit,
              h0, h2, fun x hx => List.mem_takeWhile_imp hx,
              fun x hx => List.mem_takeWhile_imp hx, ?_⟩
            rcases h3 with h3 | h3
            · left
              conv_lhs => rw [← List.takeWhile_append_dropWhile Char.isDigit s]
              rw [heq]
              conv_lhs => rw [← List.takeWhile_append_dropWhile Char.isDigit r2]
              rw [h3]
              simp
            · right
              conv_lhs => rw [← List.takeWhile_append_dropWhile Char.isDigit s]
              rw [heq]
              conv_lhs => rw [← List.takeWhile_append_dropWhile Char.isDigit r2]
              rw [h3]
              simp
          · simp at hcap
      · simp at hcap
  · rintro ⟨d1, d2, h1, h2, hd1, hd2, hform | hform⟩
    · have hform2 : s = d1 ++ ('.' :: (d2 ++ [])) := by
        rw [hform]
        simp
      rw [hform2, tryBare_form d1 d2 [] h1 h2 hd1 hd2 (Or.inl rfl)]
      simp
    · have hform2 : s = d1 ++ ('.' :: (d2 ++ ['\n'])) := by
        rw [hform]
        simp
      rw [hform2, tryBare_form d1 d2 ['\n'] h1 h2 hd1 hd2 (Or.inr rfl)]
      simp

theorem extractPaperId_eq_none_iff (s : List Char) :
    extractPaperId s = none ↔
      tryAbs s = none ∧ tryPdf s = none ∧ tryBare s = none := by
  unfold extractPaperId
  cases h1 : tryAbs s with
  | some m => simp [h1]
  | none =>
    cases h2 : tryPdf s with
    | some m => simp [h2]
    | none => simp

/-- C1: for every input string, `extractPaperId` tries the abstract-page
URL pattern, the PDF-page URL pattern, then the bare `digits.digits`
pattern, in that order, returning the first match's capture; it returns
`none` exactly when the string matches none of the three patterns. -/
theorem extractPaperId_spec (s : List Char) :
    (extractPaperId s = none ↔
      ¬ matchesAbsPattern s ∧ ¬ matchesPdfPattern s ∧ ¬ matchesBarePattern s) ∧
    (∀ cap, tryAbs s = some cap → extractPaperId s = some cap) ∧
    (tryAbs s = none → ∀ cap, tryPdf s = some cap → extractPaperId s = some cap) ∧
    (tryAbs s = none → tryPdf s = none → extractPaperId s = tryBare s) := by
  refine ⟨?_, ?_, ?_, ?_⟩
  · rw [extractPaperId_eq_none_iff]
    rw [show matchesAbsPattern s ↔ tryAbs s ≠ none from
      (tryLit_ne_none_iff litAbs s).symm]
    rw [show matchesPdfPattern s ↔ tryPdf s ≠ none from
      (tryLit_ne_none_iff litPdf s).symm]
    rw [← tryBare_ne_none_iff s]
    constructor
    · rintro ⟨ha, hp, hb⟩
      exact ⟨fun h => h ha, fun h => h hp, fun h => h hb⟩
    · rintro ⟨ha, hp, hb⟩
      exact ⟨not_not.mp (fun h => ha h), not_not.mp (fun h => hp h),
        not_not.mp (fun h => hb h)⟩
  · intro cap h
    unfold extractPaperId
    rw [h]
  · intro h1 cap h2
    unfold extractPaperId
    rw [h1, h2]
  · intro h1 h2
    unfold extractPaperId
    rw [h1, h2]

/-- Witness for C1 at concrete inputs. -/
theorem extractPaperId_spec_witness :
    extractPaperId ("2301.00001".toList) = tryBare ("2301.00001".toList) ∧
    extractPaperId ("see arxiv.org/abs/11.22 now".toList) = some ("11.22".toList) := by
  constructor
  · exact (extractPaperId_spec ("2301.00001".toList)).2.2.2 (by decide) (by decide)
  · exact (extractPaperId_spec ("see arxiv.org/abs/11.22 now".toList)).2.1
      ("11.22".toList) (by decide)

/-- C7: `cleanText` is idempotent — normalizing already-normalized text is
a no-op: `cleanText (cleanText s) = cleanText s` for every string `s`
(`cleanText` replaces newlines with spaces, collapses whitespace runs to a
single space and strips leading/trailing whitespace). -/
theorem cleanText_idempotent (s : List Char) :
    cleanText (cleanText s) = cleanText s := by
  rw [cleanText_eq_join s]
  exact cleanText_join_good (splitWs_good (replaceNl s))

/-! ## C9 helpers: `re.search` skipping a prefix without matches -/

theorem isPrefixOf_cons_ne {a c : Char} {l1 l2 : List Char}
    (h : (a == c) = false) : (a :: l1).isPrefixOf (c :: l2) = false := by
  simp only [List.isPrefixOf, h, Bool.false_and]

theorem mLit_cons_none {lit : List Char} {a : Char} {l' : List Char}
    (hl : lit = a :: l') {c : Char} {t : List Char} (h : (a == c) = false) :
    mLit lit (c :: t) = none := by
  unfold mLit
  rw [hl, if_neg]
  rw [isPrefixOf_cons_ne h]
  simp

theorem searchOpt_head_some {α : Type} {m : List Char → Option α}
    {s : List Char} {v : α} (h : m s = some v) : searchOpt m s = some v := by
  cases s with
  | nil => exact h
  | cons c rest => rw [searchOpt_cons, h]

theorem searchOpt_append_skip {α : Type} {m : List Char → Option α}
    (pre s : List Char) (h : ∀ u, u ≠ [] → u <:+ pre → m (u ++ s) = none) :
    searchOpt m (pre ++ s) = searchOpt m s := by
  induction pre with
  | nil => simp
  | cons c pre' ih =>
    have hm : m (c :: (pre' ++ s)) = none := by
      have := h (c :: pre') (by simp) (List.suffix_refl _)
      simpa using this
    rw [List.cons_append, searchOpt_cons, hm]
    exact ih (fun u hu hsub => h u hu (hsub.trans (List.suffix_cons c pre')))

theorem tryLit_none_of_head_absent {lit : List Char} {a : Char}
    {l' s : List Char} (hl : lit = a :: l')
    (hs : ∀ c ∈ s, (a == c) = false) : tryLit lit s = none := by
  apply searchOpt_eq_none_of
  intro t ht
  cases t with
  | nil =>
    unfold mLit
    rw [hl, if_neg]
    simp [List.isPrefixOf]
  | cons c t' =>
    exact mLit_cons_none hl (hs c (ht.subset (List.mem_cons_self c t')))

theorem tryLit_at_lit (lit id0 : List Char) {d1 d2 : List Char}
    (hid : id0 = d1 ++ ('.' :: d2)) (h1 : d1 ≠ []) (h2 : d2 ≠ [])
    (hd1 : ∀ c ∈ d1, c.isDigit = true) (hd2 : ∀ c ∈ d2, c.isDigit = true) :
    tryLit lit (lit ++ id0) = some id0 := by
  subst hid
  apply searchOpt_head_some
  unfold mLit
  rw [if_pos (List.isPrefixOf_iff_prefix.mpr (List.prefix_append lit _)),
    List.drop_left lit _]
  have := matchIdAt_of_form d1 d2 [] h1 h2 hd1 hd2
  simpa using this

theorem digitDot_no_a {a : Char} (ha : a.isDigit = false) (hdot : a ≠ '.')
    {s : List Char} (hs : ∀ c ∈ s, c.isDigit = true ∨ c = '.') :
    ∀ c ∈ s, (a == c) = false := by
  intro c hc
  rcases hs c hc with h | h
  · rw [beq_eq_false_iff_ne]
    intro he
    rw [he] at ha
    rw [ha] at h
    simp at h
  · rw [beq_eq_false_iff_ne, h]
    exact hdot

theorem extractPaperId_bare {d1 d2 : List Char} (h1 : d1 ≠ []) (h2 : d2 ≠ [])
    (hd1 : ∀ c ∈ d1, c.isDigit = true) (hd2 : ∀ c ∈ d2, c.isDigit = true) :
    extractPaperId (d1 ++ ('.' :: d2)) = some (d1 ++ ('.' :: d2)) := by
  have hchars : ∀ c ∈ d1 ++ ('.' :: d2), c.isDigit = true ∨ c = '.' := by
    intro c hc
    rcases List.mem_append.mp hc with h | h
    · exact Or.inl (hd1 c h)
    · rcases List.mem_cons.mp h with h | h
      · exact Or.inr h
      · exact Or.inl (hd2 c h)
  have habs : tryAbs (d1 ++ ('.' :: d2)) = none :=
    tryLit_none_of_head_absent rfl
      (digitDot_no_a (by decide) (by decide) hchars)
  have hpdf : tryPdf (d1 ++ ('.' :: d2)) = none :=
    tryLit_none_of_head_absent rfl
      (digitDot_no_a (by decide) (by decide) hchars)
  have hbare : tryBare (d1 ++ ('.' :: d2)) = some (d1 ++ ('.' :: d2)) := by
    have := tryBare_form d1 d2 [] h1 h2 hd1 hd2 (Or.inl rfl)
    simpa using this
  unfold extractPaperId
  rw [habs, hpdf]
  exact hbare

theorem tryAbs_at_url {d1 d2 : List Char} (h1 : d1 ≠ []) (h2 : d2 ≠ [])
    (hd1 : ∀ c ∈ d1, c.isDigit = true) (hd2 : ∀ c ∈ d2, c.isDigit = true) :
    tryAbs ("https://arxiv.org/abs/".toList ++ (d1 ++ ('.' :: d2)))
      = some (d1 ++ ('.' :: d2)) := by
  have hsplit : "https://arxiv.org/abs/".toList
      = "https://".toList ++ litAbs := by decide
  have hpre : ∀ c ∈ "https://".toList, ('a' == c) = false := by decide
  unfold tryAbs tryLit
  rw [hsplit, List.append_assoc]
  rw [searchOpt_append_skip "https://".toList (litAbs ++ (d1 ++ ('.' :: d2)))
    ?hnone]
  case hnone =>
    intro u hu hsub
    cases u with
    | nil => exact absurd rfl hu
    | cons c u' =>
      exact mLit_cons_none rfl (hpre c (hsub.subset (List.mem_cons_self c u')))
  exact tryLit_at_lit litAbs (d1 ++ ('.' :: d2)) rfl h1 h2 hd1 hd2

/-- C9: `getPaper` on a bare `NNNN.NNNNN` identifier and on the
corresponding `https://arxiv.org/abs/NNNN.NNNNN` URL are equivalent: both
resolve the same identifier and construct the same abstract-page locator
(this holds for every `digits.digits` identifier, in particular the
`NNNN.NNNNN` form). -/
theorem getPaper_id_url_equiv (d1 d2 : List Char) (h1 : d1 ≠ []) (h2 : d2 ≠ [])
    (hd1 : ∀ c ∈ d1, c.isDigit = true) (hd2 : ∀ c ∈ d2, c.isDigit = true) :
    extractPaperId (d1 ++ ('.' :: d2)) = some (d1 ++ ('.' :: d2)) ∧
    extractPaperId ("https://arxiv.org/abs/".toList ++ (d1 ++ ('.' :: d2)))
      = some (d1 ++ ('.' :: d2)) ∧
    getPaperLocator ("https://arxiv.org/abs/".toList ++ (d1 ++ ('.' :: d2)))
      = getPaperLocator (d1 ++ ('.' :: d2)) ∧
    getPaperLocator (d1 ++ ('.' :: d2))
      = some (URL_BASE ++ "/abs/".toList ++ (d1 ++ ('.' :: d2))) := by
  have hbare := extractPaperId_bare h1 h2 hd1 hd2
  have hurl : extractPaperId ("https://arxiv.org/abs/".toList
      ++ (d1 ++ ('.' :: d2))) = some (d1 ++ ('.' :: d2)) := by
    unfold extractPaperId
    rw [tryAbs_at_url h1 h2 hd1 hd2]
  have hne : d1 ++ ('.' :: d2) ≠ [] := by simp
  refine ⟨hbare, hurl, ?_, ?_⟩
  · unfold getPaperLocator
    rw [hbare, hurl]
  · unfold getPaperLocator
    rw [hbare]
    show (if d1 ++ ('.' :: d2) = [] then none
        else some (URL_BASE ++ "/abs/".toList ++ (d1 ++ ('.' :: d2))))
      = some (URL_BASE ++ "/abs/".toList ++ (d1 ++ ('.' :: d2)))
    rw [if_neg hne]

/-- Witness for C9 at the concrete identifier `2301.00001`. -/
theorem getPaper_id_url_equiv_witness :
    extractPaperId ("2301.00001".toList) = some ("2301.00001".toList) ∧
    extractPaperId ("https://arxiv.org/abs/2301.00001".toList)
      = some ("2301.00001".toList) ∧
    getPaperLocator ("https://arxiv.org/abs/2301.00001".toList)
      = getPaperLocator ("2301.00001".toList) := by
  have h := getPaper_id_url_equiv ("2301".toList) ("00001".toList)
    (by decide) (by decide) (by decide) (by decide)
  exact ⟨h.1, h.2.1, h.2.2.1⟩

/-! ## C5: the empty-id/empty-pdf invariant -/

theorem tryLit_some_ne_nil {lit s cap : List Char}
    (h : tryLit lit s = some cap) : cap ≠ [] := by
  obtain ⟨t, _, hm⟩ := searchOpt_eq_some_suffix h
  unfold mLit at hm
  split at hm
  · obtain ⟨d1, d2, r, _, hcap, h1, _, _, _⟩ := matchIdAt_decomp hm
    rw [hcap]
    simp
  · simp at hm

theorem tryBare_some_ne_nil {s cap : List Char}
    (h : tryBare s = some cap) : cap ≠ [] := by
  unfold tryBare at h
  split at h
  · simp at h
  · split at h
    · split at h
      · simp at h
      · split at h
        · injection h with h
          rw [← h]
          simp
        · simp at h
    · simp at h

theorem extractPaperId_some_ne_nil {s cap : List Char}
    (h : extractPaperId s = some cap) : cap ≠ [] := by
  unfold extractPaperId at h
  cases h1 : tryAbs s with
  | some m =>
    rw [h1] at h
    injection h with h
    subst h
    exact tryLit_some_ne_nil h1
  | none =>
    rw [h1] at h
    cases h2 : tryPdf s with
    | some m =>
      rw [h2] at h
      injection h with h
      subst h
      exact tryLit_some_ne_nil h2
    | none =>
      rw [h2] at h
      exact tryBare_some_ne_nil h

theorem parseItem_pdf_invariant {item : ResultItem} {p : Paper}
    (h : parseItem item = some p) (hid : p.id_arxiv = []) : p.url_pdf = [] := by
  unfold parseItem at h
  cases hu : urlAbstractOf item.linkHref with
  | none =>
    rw [hu] at h
    simp at h
  | some url =>
    rw [hu] at h
    injection h with h
    subst h
    simp only at hid ⊢
    simp [hid]

theorem parseSearchResults_ok_papers {page : SearchPage} {q : List Char}
    {pg ps : Int} {r : SearchResult}
    (h : parseSearchResults page q pg ps = .ok r) :
    r.papers = page.items.filterMap parseItem := by
  unfold parseSearchResults at h
  split at h
  · simp at h
  · injection h with h
    subst h
    rfl

theorem parseSearchResults_ok_total {page : SearchPage} {q : List Char}
    {pg ps : Int} {r : SearchResult}
    (h : parseSearchResults page q pg ps = .ok r) :
    parseTotal page.totalText = .ok r.total_results := by
  unfold parseSearchResults at h
  split at h
  · simp at h
  · rename_i total htot
    injection h with h
    subst h
    exact htot

theorem mkRecentPaper_id_ne {a : Option (List Char)}
    {t : Option (List Char)} {au : List (List Char)}
    {su : Option (List Char)} {p : Paper}
    (h : mkRecentPaper a t au su = some p) : p.id_arxiv ≠ [] := by
  unfold mkRecentPaper at h
  split at h
  · simp at h
  · rename_i hne
    injection h with h
    subst h
    simpa using hne

theorem walkEntries_id_ne (entries : List Entry) :
    ∀ p ∈ walkEntries entries, p.id_arxiv ≠ [] := by
  induction entries using walkEntries.induct with
  | case1 => intro p hp; simp [walkEntries] at hp
  | case2 => intro p hp; simp [walkEntries] at hp
  | case3 a t au su rest q hq ih =>
    intro p hp
    have hstep : walkEntries (.dt a :: .dd t au su :: rest)
        = q :: walkEntries rest := by
      show (match mkRecentPaper a t au su with
        | some p => p :: walkEntries rest
        | none => walkEntries rest) = q :: walkEntries rest
      rw [hq]
    rw [hstep] at hp
    rcases List.mem_cons.mp hp with hp | hp
    · subst hp
      exact mkRecentPaper_id_ne hq
    · exact ih p hp
  | case4 a t au su rest hq ih =>
    intro p hp
    have hstep : walkEntries (.dt a :: .dd t au su :: rest)
        = walkEntries rest := by
      show (match mkRecentPaper a t au su with
        | some p => p :: walkEntries rest
        | none => walkEntries rest) = walkEntries rest
      rw [hq]
    rw [hstep] at hp
    exact ih p hp
  | case5 e1 e2 rest hne ih =>
    intro p hp
    have hstep : walkEntries (e1 :: e2 :: rest) = walkEntries (e2 :: rest) := by
      cases e1 with
      | dt a =>
        cases e2 with
        | dt a2 => rfl
        | dd t au su => exact (hne a t au su rfl rfl).elim
      | dd t au su => rfl
    rw [hstep] at hp
    exact ih p hp

/-- C5: every `Paper` record produced by an extractor satisfies the
invariant "empty `id` implies empty `url_pdf`": in the search-results
extractor an unidentified block gets an empty `url_pdf`; the recent-listing
extractor and `getPaper` only ever build papers with a non-empty
identifier (so the invariant holds vacuously there). -/
theorem paper_pdf_invariant :
    (∀ page q pg ps r, parseSearchResults page q pg ps = .ok r →
      ∀ p ∈ r.papers, p.id_arxiv = [] → p.url_pdf = []) ∧
    (∀ entries, ∀ p ∈ walkEntries entries,
      p.id_arxiv ≠ [] ∧ (p.id_arxiv = [] → p.url_pdf = [])) ∧
    (∀ s id_arxiv title abstract authors categories date,
      extractPaperId s = some id_arxiv →
      (mkGetPaperPaper id_arxiv title abstract authors categories
        date).id_arxiv ≠ []) := by
  refine ⟨?_, ?_, ?_⟩
  · intro page q pg ps r hok p hp hid
    rw [parseSearchResults_ok_papers hok] at hp
    obtain ⟨item, _, hitem⟩ := List.mem_filterMap.mp hp
    exact parseItem_pdf_invariant hitem hid
  · intro entries p hp
    refine ⟨walkEntries_id_ne entries p hp, ?_⟩
    intro hid
    exact absurd hid (walkEntries_id_ne entries p hp)
  · intro s id_arxiv title abstract authors categories date hextract
    simpa using extractPaperId_some_ne_nil hextract

/-- Witness for C5 at concrete inputs: `getPaper` on `2301.00001`, and a
search-results block with no link element, whose placeholder paper has an
empty `url_pdf`. -/
theorem paper_pdf_invariant_witness :
    (mkGetPaperPaper ("2301.00001".toList) [] [] [] [] none).id_arxiv ≠ [] ∧
    Paper.url_pdf ⟨[], "Unknown Title".toList, [], [], [], [], [], none,
      none⟩ = [] := by
  constructor
  · exact paper_pdf_invariant.2.2 ("2301.00001".toList) ("2301.00001".toList)
      [] [] [] [] none (by decide)
  · exact paper_pdf_invariant.1 ⟨none, [⟨none, none, none, none, [], [], none⟩]⟩
      [] 1 25 ⟨[], 0, [⟨[], "Unknown Title".toList, [], [], [], [], [], none,
        none⟩], 1, 25⟩ (by rfl) _ (by decide) (by rfl)

/-! ## C2: per-block fault isolation in the search-results extractor -/

/-- C2 counterexample: on a page with three result blocks where block 2 is
malformed — missing both its title element and its abstract-page link
element — the extractor returns THREE papers, not two: the malformed block
does not raise, so it is not skipped; it yields an included placeholder
paper with title "Unknown Title" and an empty identifier. -/
theorem parseSearchResults_malformed_counterexample :
    (parseSearchResults
      { totalText := some ("Showing 1 of 3 results".toList)
        items :=
          [ { titleText := some ("Paper One".toList)
              abstractFullText := some ("Abstract: A1".toList)
              abstractShortText := none
              linkHref := some (some ("https://arxiv.org/abs/1111.11111".toList))
              authorTexts := [], tagTexts := [], dateText := none }
          , { titleText := none, abstractFullText := none
              abstractShortText := none, linkHref := none
              authorTexts := [], tagTexts := [], dateText := none }
          , { titleText := some ("Paper Three".toList)
              abstractFullText := some ("Abstract: A3".toList)
              abstractShortText := none
              linkHref := some (some ("https://arxiv.org/abs/3333.33333".toList))
              authorTexts := [], tagTexts := [], dateText := none } ] }
      ("q".toList) 1 25).map
      (fun r => (r.papers.length, r.total_results,
        r.papers.map Paper.id_arxiv, r.papers.map Paper.title))
    = .ok (3, 3,
        [ "1111.11111".toList, [], "3333.33333".toList ],
        [ "Paper One".toList, "Unknown Title".toList,
          "Paper Three".toList ]) := rfl

/-- C2 (amended): a result block is skipped only when its extraction
raises, which happens exactly when the block's link element exists but has
no `href` attribute; a block merely missing its title and link elements
yields an included placeholder paper.  The returned papers are the
per-block extractions of the non-raising blocks, in page order, and
`total_results` is computed from the page header alone, unaffected by any
block-level failure. -/
theorem parseSearchResults_fault_isolation :
    (∀ page q pg ps r, parseSearchResults page q pg ps = .ok r →
      r.papers = page.items.filterMap parseItem ∧
      parseTotal page.totalText = .ok r.total_results) ∧
    (∀ item, parseItem item = none ↔ item.linkHref = some none) := by
  refine ⟨fun page q pg ps r hok =>
    ⟨parseSearchResults_ok_papers hok, parseSearchResults_ok_total hok⟩, ?_⟩
  intro item
  unfold parseItem
  cases hu : item.linkHref with
  | none => simp [urlAbstractOf]
  | some o =>
    cases o with
    | none => simp [urlAbstractOf]
    | some href => simp [urlAbstractOf]

/-- Witness for C2 (amended) at concrete inputs: a block whose link lacks
`href` is skipped, and the header count is extracted independently. -/
theorem parseSearchResults_fault_isolation_witness :
    parseItem { titleText := some ("T".toList), abstractFullText := none
                abstractShortText := none, linkHref := some none
                authorTexts := [], tagTexts := [], dateText := none } = none ∧
    parseTotal (some ("of 7 results".toList)) = .ok 7 := by
  constructor
  · exact (parseSearchResults_fault_isolation.2 _).mpr rfl
  · exact (parseSearchResults_fault_isolation.1
      ⟨some ("of 7 results".toList), []⟩ [] 1 25 ⟨[], 7, [], 1, 25⟩ rfl).2

/-! ## C3: advanced-search validation -/

theorem optField_eq_nil_iff (tag : String) (o : Option (List Char)) :
    optField tag o = [] ↔ truthy o = false := by
  cases o with
  | none => simp [optField, truthy]
  | some s =>
    cases hs : s.isEmpty <;> simp [optField, truthy, hs]

/-- C3 counterexample: supplying only the `date_from` field — a filter
field per the function's own docstring — still yields the validation
error, so "fails fast exactly when zero filter fields are supplied, and
otherwise proceeds to fetch" is false as stated. -/
theorem searchAdvanced_dateOnly_counterexample :
    searchAdvanced none none none none none (some ("2020-01-01".toList)) none
      ("relevance".toList) 1 25
    = .err ("At least one search field is required".toList) := rfl

/-- C3 (amended): `searchAdvanced` returns the structured error mapping —
issuing no fetch — exactly when the five queryable filter fields
(`title`, `abstract`, `author`, `category`, `id_arxiv`) are all absent or
empty; `date_from`/`date_to` do not count towards this check; otherwise it
builds a fetch request. -/
theorem searchAdvanced_validation (title abstract author category id_arxiv
    date_from date_to : Option (List Char)) (sort_by : List Char)
    (page page_size : Int) :
    (searchAdvanced title abstract author category id_arxiv date_from
        date_to sort_by page page_size
      = .err ("At least one search field is required".toList) ↔
      (truthy title = false ∧ truthy abstract = false ∧
       truthy author = false ∧ truthy category = false ∧
       truthy id_arxiv = false)) ∧
    ((∃ req, searchAdvanced title abstract author category id_arxiv
        date_from date_to sort_by page page_size = .fetch req) ↔
      (truthy title = true ∨ truthy abstract = true ∨ truthy author = true ∨
       truthy category = true ∨ truthy id_arxiv = true)) := by
  have hEmpty : (optField "ti:" title ++ optField "abs:" abstract ++
      optField "au:" author ++ optField "cat:" category ++
      optField "id:" id_arxiv).isEmpty = true ↔
      (truthy title = false ∧ truthy abstract = false ∧
       truthy author = false ∧ truthy category = false ∧
       truthy id_arxiv = false) := by
    rw [List.isEmpty_iff]
    simp only [List.append_eq_nil, optField_eq_nil_iff]
    tauto
  constructor
  · constructor
    · intro h
      by_cases hc : (optField "ti:" title ++ optField "abs:" abstract ++
          optField "au:" author ++ optField "cat:" category ++
          optField "id:" id_arxiv).isEmpty = true
      · exact hEmpty.mp hc
      · unfold searchAdvanced at h
        rw [if_neg hc] at h
        exact AdvResult.noConfusion h
    · intro hfals
      unfold searchAdvanced
      rw [if_pos (hEmpty.mpr hfals)]
  · constructor
    · rintro ⟨req, hreq⟩
      by_cases hc : (optField "ti:" title ++ optField "abs:" abstract ++
          optField "au:" author ++ optField "cat:" category ++
          optField "id:" id_arxiv).isEmpty = true
      · unfold searchAdvanced at hreq
        rw [if_pos hc] at hreq
        exact AdvResult.noConfusion hreq
      · have hne : ¬ (truthy title = false ∧ truthy abstract = false ∧
            truthy author = false ∧ truthy category = false ∧
            truthy id_arxiv = false) := fun hall => hc (hEmpty.mpr hall)
        by_cases h1 : truthy title = true
        · exact Or.inl h1
        · by_cases h2 : truthy abstract = true
          · exact Or.inr (Or.inl h2)
          · by_cases h3 : truthy author = true
            · exact Or.inr (Or.inr (Or.inl h3))
            · by_cases h4 : truthy category = true
              · exact Or.inr (Or.inr (Or.inr (Or.inl h4)))
              · by_cases h5 : truthy id_arxiv = true
                · exact Or.inr (Or.inr (Or.inr (Or.inr h5)))
                · exact absurd ⟨Bool.eq_false_iff.mpr h1,
                    Bool.eq_false_iff.mpr h2, Bool.eq_false_iff.mpr h3,
                    Bool.eq_false_iff.mpr h4, Bool.eq_false_iff.mpr h5⟩ hne
    · intro hdisj
      have hc : ¬ (optField "ti:" title ++ optField "abs:" abstract ++
          optField "au:" author ++ optField "cat:" category ++
          optField "id:" id_arxiv).isEmpty = true := by
        intro hc
        have hall := hEmpty.mp hc
        rcases hdisj with h | h | h | h | h
        · rw [hall.1] at h; exact Bool.noConfusion h
        · rw [hall.2.1] at h; exact Bool.noConfusion h
        · rw [hall.2.2.1] at h; exact Bool.noConfusion h
        · rw [hall.2.2.2.1] at h; exact Bool.noConfusion h
        · rw [hall.2.2.2.2] at h; exact Bool.noConfusion h
      unfold searchAdvanced
      rw [if_neg hc]
      exact ⟨_, rfl⟩

/-- Witness for C3 (amended): all five query fields absent yields exactly
the validation error. -/
theorem searchAdvanced_validation_witness :
    searchAdvanced none none none none none none none
      ("relevance".toList) 1 25
    = .err ("At least one search field is required".toList) :=
  (searchAdvanced_validation none none none none none none none
    ("relevance".toList) 1 25).1.mpr (by decide)

/-! ## C6: page-size clamping and pagination offset -/

/-- C6: every caller-supplied `page_size` (and `count` in the
recent-listing adapter) is clamped to at most 50 before the request is
built (e.g. 1000 becomes 50), and the pagination offset is
`start = (page - 1) * page_size` with the clamped size. -/
theorem page_size_clamped (q : List Char) (category author : Option (List Char))
    (sort_by : List Char) (page page_size : Int) :
    (search q category author sort_by page page_size).size
      = min page_size 50 ∧
    (search q category author sort_by page page_size).size ≤ 50 ∧
    (search q category author sort_by page page_size).start
      = (page - 1) * min page_size 50 ∧
    (∀ title abstract author2 cat2 id_arxiv date_from date_to req,
      searchAdvanced title abstract author2 cat2 id_arxiv date_from date_to
        sort_by page page_size = .fetch req →
      req.size = min page_size 50 ∧ req.size ≤ 50 ∧
      req.start = (page - 1) * min page_size 50) ∧
    (∀ category2 entries,
      (getRecent category2 page_size entries).url
        = URL_BASE ++ "/list/".toList ++ category2.toList
          ++ "/recent?skip=0&show=".toList ++ intToStr (min page_size 50)) ∧
    min (1000 : Int) 50 = 50 := by
  refine ⟨rfl, min_le_right _ _, rfl, ?_, fun c e => rfl, by decide⟩
  intro t a au2 c i df dt req h
  unfold searchAdvanced at h
  split at h
  · exact AdvResult.noConfusion h
  · injection h with h
    subst h
    exact ⟨rfl, min_le_right _ _, rfl⟩

/-- Witness for C6 at `page_size = 1000`: the effective size is 50 in the
plain and advanced search adapters, and the offset for page 2 is 50. -/
theorem page_size_clamped_witness :
    (search ("x".toList) none none ("relevance".toList) 2 1000).size = 50 ∧
    (search ("x".toList) none none ("relevance".toList) 2 1000).start = 50 ∧
    FetchRequest.size
      ⟨("https://arxiv.org/search/advanced?terms-0-operator=AND&terms-0-term=ti%3Aa&terms-0-field=all&classification-physics_archives=all&classification-include_cross_list=include&abstracts=show&size=50&start=0&order=".toList),
        ("ti:a".toList), 50, 0⟩ = 50 := by
  have h := page_size_clamped ("x".toList) none none ("relevance".toList)
    2 1000
  have h2 := page_size_clamped [] none none ("x".toList) 1 1000
  refine ⟨?_, ?_, ?_⟩
  · rw [h.1]; decide
  · rw [h.2.2.1]; decide
  · have h3 := (h2.2.2.2.1 (some ("a".toList)) none none none none none none
      ⟨("https://arxiv.org/search/advanced?terms-0-operator=AND&terms-0-term=ti%3Aa&terms-0-field=all&classification-physics_archives=all&classification-include_cross_list=include&abstracts=show&size=50&start=0&order=".toList),
        ("ti:a".toList), 50, 0⟩ (by rfl)).1
    rw [h3]
    decide

/-! ## C10: `getRecent` result shape -/

/-- C10: the `count` field returned by `getRecent` is the number of
returned papers — the number of `dt`/`dd` pairs from which an identifier
was extracted — not the caller-requested count (for an empty listing it is
0 regardless of the request), and `category_name` falls back to the raw
category code when the code is not in the built-in table. -/
theorem getRecent_count_and_name (category : String) (count : Int)
    (entries : List Entry) :
    (getRecent category count entries).count
      = (getRecent category count entries).papers.length ∧
    (getRecent category count entries).papers = walkEntries entries ∧
    (ARXIV_CATEGORIES.lookup category = none →
      (getRecent category count entries).category_name = category) ∧
    (∀ name, ARXIV_CATEGORIES.lookup category = some name →
      (getRecent category count entries).category_name = name) ∧
    (getRecent category count []).count = 0 := by
  refine ⟨rfl, rfl, ?_, ?_, rfl⟩
  · intro h
    show (ARXIV_CATEGORIES.lookup category).getD category = category
    rw [h]
    rfl
  · intro name h
    show (ARXIV_CATEGORIES.lookup category).getD category = name
    rw [h]
    rfl

/-- Witness for C10: an unknown code falls back to itself, a known code
maps to its display name, and an empty listing yields `count = 0` although
10 papers were requested. -/
theorem getRecent_count_and_name_witness :
    (getRecent "xx.YY" 10 []).category_name = "xx.YY" ∧
    (getRecent "cs.AI" 10 []).category_name = "Artificial Intelligence" ∧
    (getRecent "cs.AI" 10 []).count = 0 := by
  refine ⟨?_, ?_, (getRecent_count_and_name "cs.AI" 10 []).2.2.2.2⟩
  · exact (getRecent_count_and_name "xx.YY" 10 []).2.2.1 (by rfl)
  · exact (getRecent_count_and_name "cs.AI" 10 []).2.2.2.1
      "Artificial Intelligence" (by rfl)

/-! ## C8: `listCategories` -/

theorem catKeyLE_iff (a b : Category) :
    catKeyLE a b = true ↔
      (a.group < b.group ∨ (a.group = b.group ∧ ¬ b.code < a.code)) := by
  unfold catKeyLE
  split_ifs with h1 h2 h3 h4
  · simp [h1]
  · simp only [Bool.false_eq_true, false_iff]
    rintro (h | ⟨heq, _⟩)
    · exact h1 h
    · rw [heq] at h2
      exact absurd h2 (lt_irrefl _)
  · have heq : a.group = b.group := le_antisymm (not_lt.mp h2) (not_lt.mp h1)
    simp only [true_iff]
    exact Or.inr ⟨heq, asymm h3⟩
  · simp only [Bool.false_eq_true, false_iff]
    rintro (h | ⟨_, hnc⟩)
    · exact h1 h
    · exact hnc h4
  · have heq : a.group = b.group := le_antisymm (not_lt.mp h2) (not_lt.mp h1)
    simp only [true_iff]
    exact Or.inr ⟨heq, h4⟩

theorem catKeyLE_trans (a b c : Category) (hab : catKeyLE a b)
    (hbc : catKeyLE b c) : catKeyLE a c := by
  rw [catKeyLE_iff] at hab hbc ⊢
  rcases hab with h1 | ⟨he1, hc1⟩
  · rcases hbc with h2 | ⟨he2, _⟩
    · exact Or.inl (lt_trans h1 h2)
    · exact Or.inl (he2 ▸ h1)
  · rcases hbc with h2 | ⟨he2, hc2⟩
    · exact Or.inl (he1 ▸ h2)
    · refine Or.inr ⟨he1.trans he2, fun hlt => ?_⟩
      have hab2 : a.code ≤ b.code := not_lt.mp hc1
      have hbc2 : b.code ≤ c.code := not_lt.mp hc2
      exact absurd hlt (not_lt.mpr (hab2.trans hbc2))

theorem catKeyLE_total (a b : Category) : catKeyLE a b || catKeyLE b a := by
  rcases lt_trichotomy a.group b.group with h | h | h
  · have : catKeyLE a b = true := (catKeyLE_iff a b).mpr (Or.inl h)
    simp [this]
  · rcases lt_trichotomy a.code b.code with h2 | h2 | h2
    · have : catKeyLE a b = true :=
        (catKeyLE_iff a b).mpr (Or.inr ⟨h, asymm h2⟩)
      simp [this]
    · have : catKeyLE a b = true :=
        (catKeyLE_iff a b).mpr (Or.inr ⟨h, by rw [h2]; exact lt_irrefl _⟩)
      simp [this]
    · have : catKeyLE b a = true :=
        (catKeyLE_iff b a).mpr (Or.inr ⟨h.symm, asymm h2⟩)
      simp [this]
  · have : catKeyLE b a = true := (catKeyLE_iff b a).mpr (Or.inl h)
    simp [this]

/-- C8: `listCategories` returns exactly the categories of the built-in
table as `{code, name, group}` records with `group` computed from the
code's prefix (defaulting to "Physics"), as a permutation sorted by the
`(group, code)` key, lexicographically on code points; the result is a
constant of the program, so repeated calls return the same value. -/
theorem listCategories_spec :
    listCategories.Perm (ARXIV_CATEGORIES.map
      (fun p => { code := p.1, name := p.2, group := groupOf p.1 })) ∧
    listCategories.Pairwise (fun a b => catKeyLE a b = true) ∧
    listCategories.Pairwise (fun a b =>
      a.group < b.group ∨ (a.group = b.group ∧ ¬ b.code < a.code)) ∧
    (∀ cat ∈ listCategories, cat.group = groupOf cat.code) := by
  have hperm : listCategories.Perm (ARXIV_CATEGORIES.map
      (fun p => { code := p.1, name := p.2, group := groupOf p.1 })) :=
    List.mergeSort_perm _ catKeyLE
  have hsorted := List.sorted_mergeSort catKeyLE_trans
    catKeyLE_total (ARXIV_CATEGORIES.map
      (fun p => { code := p.1, name := p.2, group := groupOf p.1 }))
  refine ⟨hperm, hsorted, hsorted.imp (fun h => (catKeyLE_iff _ _).mp h), ?_⟩
  intro cat hmem
  have : cat ∈ ARXIV_CATEGORIES.map
      (fun p => ({ code := p.1, name := p.2, group := groupOf p.1 } :
        Category)) := hperm.mem_iff.mp hmem
  obtain ⟨p, _, rfl⟩ := List.mem_map.mp this
  rfl

/-- Witness for C8: `cs.AI` appears in the listing with its table name and
the computed group. -/
theorem listCategories_spec_witness :
    Category.group ⟨"cs.AI", "Artificial Intelligence", "Computer Science"⟩
      = groupOf "cs.AI" ∧
    (⟨"cs.AI", "Artificial Intelligence", "Computer Science"⟩ : Category)
      ∈ listCategories := by
  have hmem : (⟨"cs.AI", "Artificial Intelligence", "Computer Science"⟩ :
      Category) ∈ listCategories := by
    rw [listCategories_spec.1.mem_iff]
    refine List.mem_map.mpr ⟨("cs.AI", "Artificial Intelligence"), ?_, rfl⟩
    simp [ARXIV_CATEGORIES]
  exact ⟨listCategories_spec.2.2.2 _ hmem, hmem⟩

/-! ## C4: abstract label stripping -/

theorem joinWith_append_singleton (sep w : List Char)
    (ws : List (List Char)) (h : ws ≠ []) :
    joinWith sep (ws ++ [w]) = joinWith sep ws ++ sep ++ w := by
  induction ws with
  | nil => exact absurd rfl h
  | cons w1 ws1 ih =>
    cases ws1 with
    | nil => rfl
    | cons w2 ws2 =>
      have : (w2 :: ws2) ++ [w] = w2 :: (ws2 ++ [w]) := rfl
      rw [show w1 :: w2 :: ws2 ++ [w] = w1 :: ((w2 :: ws2) ++ [w]) from rfl,
        joinWith_cons_of_ne sep w1 (by simp),
        ih (by simp),
        joinWith_cons_of_ne sep w1 (by simp)]
      simp [List.append_assoc]

theorem joinWith_head_nonWs {ws : List (List Char)} (h : goodWords ws)
    (hne : ws ≠ []) :
    ∃ c u, joinWith [' '] ws = c :: u ∧ pyWs c = false := by
  cases ws with
  | nil => exact absurd rfl hne
  | cons w ws =>
    obtain ⟨hwne, hall⟩ := h w (List.mem_cons_self w ws)
    obtain ⟨c, w', rfl⟩ : ∃ c w', w = c :: w' := by
      cases w with
      | nil => exact absurd rfl hwne
      | cons c w' => exact ⟨c, w', rfl⟩
    have hc : pyWs c = false := hall c (List.mem_cons_self c w')
    cases ws with
    | nil => exact ⟨c, w', rfl, hc⟩
    | cons w2 ws2 =>
      refine ⟨c, w' ++ [' '] ++ joinWith [' '] (w2 :: ws2), ?_, hc⟩
      rw [joinWith_cons_of_ne [' '] (c :: w') (by simp)]
      simp

theorem rstripWs_append_single {t : List Char} {c : Char}
    (h : pyWs c = false) : rstripWs (t ++ [c]) = t ++ [c] := by
  unfold rstripWs
  rw [List.reverse_append]
  simp only [List.reverse_cons, List.reverse_nil, List.nil_append,
    List.singleton_append]
  rw [dropWhile_cons_neg h]
  simp

theorem rstripWs_append_ws (t : List Char) :
    rstripWs (t ++ [' ']) = rstripWs t := by
  unfold rstripWs
  rw [List.reverse_append]
  simp only [List.reverse_cons, List.reverse_nil, List.nil_append,
    List.singleton_append]
  rw [List.dropWhile_cons]
  simp [pyWs]

theorem removeLessMore_strips {body lbl : List Char}
    (hl : lbl = "Less".toList ∨ lbl = "More".toList)
    (hgood : goodWords (splitWs (replaceNl body)))
    (hbody : joinWith [' '] (splitWs (replaceNl body)) = body)
    (hwsne : splitWs (replaceNl body) ≠ []) :
    removeLessMore ("Abstract: ".toList ++ body ++ ' ' :: lbl)
      = "Abstract: ".toList ++ body := by
  have hlen : lbl.length = 4 := by rcases hl with rfl | rfl <;> rfl
  have hraw : "Abstract: ".toList ++ body ++ ' ' :: lbl
      = ("Abstract: ".toList ++ body ++ [' ']) ++ lbl := by simp
  obtain ⟨t, c, hlast, hc⟩ := joinWith_last_nonWs hgood hwsne
  rw [hbody] at hlast
  have hbody_r : rstripWs ("Abstract: ".toList ++ body)
      = "Abstract: ".toList ++ body := by
    rw [hlast, show "Abstract: ".toList ++ (t ++ [c])
      = ("Abstract: ".toList ++ t) ++ [c] by simp]
    rw [rstripWs_append_single hc]
  have hr : rstripWs ("Abstract: ".toList ++ body ++ ' ' :: lbl)
      = "Abstract: ".toList ++ body ++ ' ' :: lbl := by
    rcases hl with rfl | rfl
    · rw [show "Abstract: ".toList ++ body ++ ' ' :: "Less".toList
        = ("Abstract: ".toList ++ body ++ (' ' :: ['L', 'e', 's'])) ++ ['s']
        by simp]
      rw [rstripWs_append_single (by decide)]
    · rw [show "Abstract: ".toList ++ body ++ ' ' :: "More".toList
        = ("Abstract: ".toList ++ body ++ (' ' :: ['M', 'o', 'r'])) ++ ['e']
        by simp]
      rw [rstripWs_append_single (by decide)]
  have hsuffix : (("Less".toList).isSuffixOf
        ("Abstract: ".toList ++ body ++ ' ' :: lbl)
      || ("More".toList).isSuffixOf
        ("Abstract: ".toList ++ body ++ ' ' :: lbl)) = true := by
    rcases hl with rfl | rfl
    · have : ("Less".toList).isSuffixOf
          ("Abstract: ".toList ++ body ++ ' ' :: "Less".toList) = true := by
        rw [List.isSuffixOf_iff_suffix]
        exact ⟨"Abstract: ".toList ++ body ++ [' '], by simp⟩
      rw [this]
      rfl
    · have : ("More".toList).isSuffixOf
          ("Abstract: ".toList ++ body ++ ' ' :: "More".toList) = true := by
        rw [List.isSuffixOf_iff_suffix]
        exact ⟨"Abstract: ".toList ++ body ++ [' '], by simp⟩
      rw [this]
      simp
  unfold removeLessMore
  rw [hr, if_pos hsuffix, hraw, List.length_append, hlen]
  have htake : (("Abstract: ".toList ++ body ++ [' ']) ++ lbl).take
      (("Abstract: ".toList ++ body ++ [' ']).length + 4 - 4)
      = "Abstract: ".toList ++ body ++ [' '] := by
    rw [Nat.add_sub_cancel]
    exact List.take_left _ _
  rw [htake, rstripWs_append_ws, hbody_r]

theorem removeAbstractLabel_strips {body : List Char}
    (hgood : goodWords (splitWs (replaceNl body)))
    (hbody : joinWith [' '] (splitWs (replaceNl body)) = body)
    (hwsne : splitWs (replaceNl body) ≠ []) :
    removeAbstractLabel ("Abstract: ".toList ++ body) = body := by
  obtain ⟨c, u, hhead, hc⟩ := joinWith_head_nonWs hgood hwsne
  rw [hbody] at hhead
  have hshape : "Abstract: ".toList ++ body
      = "Abstract:".toList ++ (' ' :: body) := by
    rw [show "Abstract: ".toList = "Abstract:".toList ++ [' '] from rfl]
    simp
  unfold removeAbstractLabel
  rw [hshape,
    if_pos (List.isPrefixOf_iff_prefix.mpr (List.prefix_append _ _))]
  have hdrop : ("Abstract:".toList ++ ' ' :: body).drop 9 = ' ' :: body :=
    List.drop_left "Abstract:".toList (' ' :: body)
  rw [hdrop, List.dropWhile_cons]
  simp only [show pyWs ' ' = true by rfl, if_true]
  rw [hhead, dropWhile_cons_neg hc]

/-- The search-results extractor's abstract pipeline, read off `parseItem`
for a block whose full-abstract element is present and whose link element
is absent. -/
theorem parseItem_abstract (title ashort : Option (List Char))
    (au tags : List (List Char)) (dtext : Option (List Char))
    (raw : List Char) :
    (parseItem { titleText := title, abstractFullText := some raw
                 abstractShortText := ashort, linkHref := none
                 authorTexts := au, tagTexts := tags,
                 dateText := dtext }).map Paper.abstract
      = some (removeAbstractLabel (removeLessMore (cleanText raw))) := rfl

/-- C4 counterexample: the single-paper extractor (`getPaper`, lines
290-291) does not strip a trailing "More" toggle label: on abstract text
`"Abstract: Hi More"` it returns `"Hi More"`, which still ends in
`"More"`. -/
theorem paperAbstract_trailing_more_counterexample :
    paperAbstract ("Abstract: Hi More".toList) = "Hi More".toList ∧
    ("More".toList).isSuffixOf (paperAbstract ("Abstract: Hi More".toList))
      = true := by decide

/-- C4 (amended): the search-results extractor strips one trailing
"Less"/"More" toggle label and the leading "Abstract:" label from the
cleaned abstract; the single-paper extractor removes occurrences of the
substring "Abstract:" (in particular the leading label) but leaves
trailing "Less"/"More" labels in place. -/
theorem abstract_label_stripping :
    (∀ title ashort au tags dtext body lbl,
      (lbl = "Less".toList ∨ lbl = "More".toList) →
      cleanText body = body → body ≠ [] →
      (parseItem { titleText := title
                   abstractFullText :=
                     some ("Abstract: ".toList ++ body ++ ' ' :: lbl)
                   abstractShortText := ashort, linkHref := none
                   authorTexts := au, tagTexts := tags,
                   dateText := dtext }).map Paper.abstract = some body) ∧
    (∀ body, cleanText body = body → removeAbstractAll body = body →
      paperAbstract ("Abstract: ".toList ++ body) = body) := by
  constructor
  · intro title ashort au tags dtext body lbl hl hclean hne
    rw [parseItem_abstract]
    have hgood := splitWs_good (replaceNl body)
    have hbody : joinWith [' '] (splitWs (replaceNl body)) = body :=
      (cleanText_eq_join body).symm.trans hclean
    have hwsne : splitWs (replaceNl body) ≠ [] := by
      intro h
      rw [h] at hbody
      exact hne hbody.symm
    have hgoodWS : goodWords ("Abstract:".toList ::
        (splitWs (replaceNl body) ++ [lbl])) := by
      intro w hw
      rcases List.mem_cons.mp hw with hw | hw
      · subst hw
        exact ⟨by decide, by decide⟩
      · rcases List.mem_append.mp hw with hw | hw
        · exact hgood w hw
        · simp only [List.mem_singleton] at hw
          subst hw
          rcases hl with rfl | rfl
          · exact ⟨by decide, by decide⟩
          · exact ⟨by decide, by decide⟩
    have hraw : "Abstract: ".toList ++ body ++ ' ' :: lbl
        = joinWith [' '] ("Abstract:".toList ::
            (splitWs (replaceNl body) ++ [lbl])) := by
      rw [joinWith_cons_of_ne [' '] _ (by simp),
        joinWith_append_singleton [' '] lbl _ hwsne, hbody,
        show "Abstract: ".toList = "Abstract:".toList ++ [' '] from rfl]
      simp
    have hclean_raw : cleanText ("Abstract: ".toList ++ body ++ ' ' :: lbl)
        = "Abstract: ".toList ++ body ++ ' ' :: lbl := by
      rw [hraw]
      exact cleanText_join_good hgoodWS
    rw [hclean_raw, removeLessMore_strips hl hgood hbody hwsne,
      removeAbstractLabel_strips hgood hbody hwsne]
  · intro body hclean hnoocc
    have hstep : removeAbstractAll ("Abstract: ".toList ++ body)
        = ' ' :: removeAbstractAll body := rfl
    unfold paperAbstract
    rw [hstep, hnoocc]
    unfold cleanText
    have h1 : replaceNl (' ' :: body) = ' ' :: replaceNl body := by
      simp [replaceNl]
    rw [h1, splitWs_cons_of_ws _ (by decide)]
    exact hclean

/-- Witness for C4 (amended) at concrete inputs. -/
theorem abstract_label_stripping_witness :
    (parseItem { titleText := none
                 abstractFullText := some ("Abstract: Hi More".toList)
                 abstractShortText := none, linkHref := none
                 authorTexts := [], tagTexts := [],
                 dateText := none }).map Paper.abstract
      = some ("Hi".toList) ∧
    paperAbstract ("Abstract: Hi".toList) = "Hi".toList := by
  constructor
  · exact abstract_label_stripping.1 none none [] [] none ("Hi".toList)
      ("More".toList) (Or.inr rfl) (by decide) (by decide)
  · exact abstract_label_stripping.2 ("Hi".toList) (by decide) (by decide)

example : extractPaperId ("https://arxiv.org/abs/2301.00001".toList)
    = some ("2301.00001".toList) := by decide
example : extractPaperId ("2301.00001".toList) = some ("2301.00001".toList) := by decide
example : extractPaperId ("https://arxiv.org/pdf/2301.00001v2".toList)
    = some ("2301.00001".toList) := by decide
example : extractPaperId ("hello".toList) = none := by decide
example : cleanText ("  a\n b   c ".toList) = "a b c".toList := by decide
example : cleanText ("a b c".toList) = "a b c".toList := by decide

example : removeLessMore ("A1 More".toList) = "A1".toList := by decide
example : removeAbstractLabel ("Abstract: hi".toList) = "hi".toList := by decide
example : removeAbstractAll ("Abstract: Hi More".toList) = " Hi More".toList := by decide
example : searchOpt matchSubmittedAt ("Submitted 12 January, 2023; blah".toList)
    = some ("12 January, 2023".toList) := by decide
example : parseTotal (some ("of 1,234 results".toList)) = .ok 1234 := rfl

end ArxivMcp
